import Mathlib

/-!
# Verification of the sales-analytics transformation pipeline

Shallow embedding of the pipeline implemented in `utils/data_processor.py`,
`utils/api_handler.py` and `utils/report_generator.py`:
parse → validate/filter → aggregate → enrich → persist → report.

Modelling conventions:
* Python `int` is modelled by `Int`, Python `float` by `ℚ` (exact rational
  arithmetic; the program only adds, multiplies, divides and rounds to two
  decimal places).
* Python `dict` (insertion ordered) is modelled by an association list
  `List (κ × ν)`; inserting a fresh key appends at the end, updating an
  existing key rewrites it in place, as CPython does.
* Python `str` values are Lean `String`s; the handful of `str` methods the
  program uses (`strip`, `split('|')`, `replace(',', '')`, `lower`,
  `startswith`, `isdigit`) are defined below on the underlying character
  lists, restricted to ASCII where Python's behaviour is Unicode-aware.
* `int(s)` / `float(s)` are modelled on the decimal-literal fragment the
  data format uses (optional sign, digits, optional fraction part); the
  exotic forms (`"inf"`, exponents, underscore separators) never occur in
  the pipeline's own serialisations.
* `list.sort(key=..., reverse=...)` / `sorted(...)` are modelled by the
  stable `List.mergeSort`.
-/

/-! ## Characters and digit strings -/

/-- The six ASCII characters Python's `str.strip()` removes. -/
def isPySpace (c : Char) : Bool :=
  c = ' ' || c = '\t' || c = '\n' || c = '\r' || c = '\x0b' || c = '\x0c'

/-- Numeric value of a decimal digit character (`'0'` ↦ 0, …, `'9'` ↦ 9). -/
def charVal (c : Char) : Nat := c.toNat - 48

/-- The decimal digit character for a value below ten. -/
def digitChar (d : Nat) : Char :=
  match d with
  | 0 => '0' | 1 => '1' | 2 => '2' | 3 => '3' | 4 => '4'
  | 5 => '5' | 6 => '6' | 7 => '7' | 8 => '8' | _ => '9'

/-- Value of a big-endian digit-character list, as in `int("123")`. -/
def digitsVal (l : List Char) : Nat :=
  l.foldl (fun a c => 10 * a + charVal c) 0

/-- All characters are ASCII decimal digits. -/
def allDigits (l : List Char) : Bool := l.all Char.isDigit

/-- Python `int(s)` on an optionally signed digit string. -/
def pyIntCore (l : List Char) : Option Nat :=
  if l ≠ [] ∧ allDigits l then some (digitsVal l) else none

/-- Model of Python `int(s)` for strings of the form `[+-]?digits`. -/
def pyInt (s : String) : Option Int :=
  match s.data with
  | [] => none
  | c :: rest =>
      if c = '-' then (pyIntCore rest).map (fun n => -(n : Int))
      else if c = '+' then (pyIntCore rest).map (fun n => (n : Int))
      else (pyIntCore (c :: rest)).map (fun n => (n : Int))

/-- Magnitude of a decimal literal: `digits`, `digits.digits`, `digits.`
or `.digits`; the characters before the first `'.'` are the integer part,
those after it the fraction part. -/
def pyFloatCore (l : List Char) : Option ℚ :=
  match l.dropWhile (fun c => c ≠ '.') with
  | [] =>
      if l.takeWhile (fun c => c ≠ '.') ≠ [] ∧ allDigits (l.takeWhile (fun c => c ≠ '.')) then
        some (digitsVal (l.takeWhile (fun c => c ≠ '.')))
      else none
  | _ :: fp =>
      if (l.takeWhile (fun c => c ≠ '.') ≠ [] ∨ fp ≠ []) ∧
          allDigits (l.takeWhile (fun c => c ≠ '.')) ∧ allDigits fp then
        some ((digitsVal (l.takeWhile (fun c => c ≠ '.')) : ℚ) +
          (digitsVal fp : ℚ) / 10 ^ fp.length)
      else none

/-- Model of Python `float(s)` on the decimal-literal fragment
`[+-]?(digits[.digits?] | .digits)` used by this data format. -/
def pyFloat (s : String) : Option ℚ :=
  match s.data with
  | [] => none
  | c :: rest =>
      if c = '-' then (pyFloatCore rest).map (fun q => -q)
      else if c = '+' then pyFloatCore rest
      else pyFloatCore (c :: rest)

/-! ## String operations used by the parser -/

/-- Drop the trailing characters satisfying `p`. -/
def dropTrail (p : Char → Bool) (l : List Char) : List Char :=
  ((l.reverse).dropWhile p).reverse

/-- `str.strip()` on the character list: drop leading and trailing
whitespace. -/
def stripAux (l : List Char) : List Char :=
  dropTrail isPySpace (l.dropWhile isPySpace)

/-- Model of Python `str.strip()`. -/
def pyStrip (s : String) : String := ⟨stripAux s.data⟩

/-- Model of Python `str.replace(',', '')`: every comma is removed. -/
def removeCommas (s : String) : String := ⟨s.data.filter (fun c => c ≠ ',')⟩

/-- `str.split('|')` on the character list: split at every pipe, keeping
empty pieces (`"a||b" ↦ ["a", "", "b"]`, `"" ↦ [""]`). -/
def splitPipeAux : List Char → List (List Char)
  | [] => [[]]
  | c :: rest =>
      let r := splitPipeAux rest
      if c = '|' then [] :: r
      else
        match r with
        | h :: t => (c :: h) :: t
        | [] => [[c]]

/-- Model of Python `line.split('|')`. -/
def splitPipe (s : String) : List String :=
  (splitPipeAux s.data).map (fun l => ⟨l⟩)

/-- Interleave `'|'` between the pieces (`'|'.join`). -/
def joinPipeAux : List (List Char) → List Char
  | [] => []
  | [x] => x
  | x :: xs => x ++ '|' :: joinPipeAux xs

/-- Model of `'|'.join(fields)`, how both writers build a row. -/
def joinPipe (fields : List String) : String :=
  ⟨joinPipeAux (fields.map String.data)⟩

/-- ASCII model of Python `str.lower()`. -/
def pyLower (s : String) : String :=
  ⟨s.data.map (fun c => if 'A' ≤ c ∧ c ≤ 'Z' then Char.ofNat (c.toNat + 32) else c)⟩

/-- Python `s.startswith("T")`: the first character is `'T'`. -/
def pyStartsWithT (s : String) : Bool :=
  match s.data with
  | [] => false
  | c :: _ => c = 'T'

/-! ## The transaction record (`parse_transactions`, data_processor.py 5–26) -/

/-- A parsed sales transaction, the record type flowing through the whole
pipeline.  `Quantity` is a Python `int`, `UnitPrice` a Python `float`
(modelled exactly as a rational). -/
structure Transaction where
  transactionID : String
  date : String
  productID : String
  productName : String
  quantity : Int
  unitPrice : ℚ
  customerID : String
  region : String
deriving Repr, DecidableEq

/-- `Amount = Quantity × UnitPrice`, computed on demand everywhere. -/
def amount (t : Transaction) : ℚ := (t.quantity : ℚ) * t.unitPrice

/-- One iteration of the `parse_transactions` loop: split on `'|'`, require
exactly 8 fields, strip each, remove grouping commas from the name and the
numeric fields, convert quantity with `int` and unit price with `float`.
Any conversion failure yields `none` (the `except` branch `continue`s). -/
def parseLine (line : String) : Option Transaction :=
  match splitPipe line with
  | [p0, p1, p2, p3, p4, p5, p6, p7] =>
      match pyInt (removeCommas (pyStrip p4)), pyFloat (removeCommas (pyStrip p5)) with
      | some q, some up =>
          some { transactionID := pyStrip p0
                 date := pyStrip p1
                 productID := pyStrip p2
                 productName := removeCommas (pyStrip p3)
                 quantity := q
                 unitPrice := up
                 customerID := pyStrip p6
                 region := pyStrip p7 }
      | _, _ => none
  | _ => none

/-- `parse_transactions(raw_lines)`: parse each line, silently discarding
malformed ones. -/
def parse_transactions (raw_lines : List String) : List Transaction :=
  raw_lines.filterMap parseLine

/-! ## Rounding (`round(x, 2)`) -/

/-- Model of `round(x, 2)`: round to the nearest multiple of `1/100`.
(Python rounds halves to even; `round` rounds halves up.  The two agree
except at exact half-cent values, and every theorem below uses rounding
only through the bound `|round2 x - x| ≤ 1/200` or at non-half inputs.) -/
def round2 (x : ℚ) : ℚ := (round (x * 100) : ℚ) / 100

/-! ## Validator / filter (`validate_and_filter_data`, data_processor.py 28–73) -/

/-- The summary dictionary returned by `validate_and_filter_data`. -/
structure VSummary where
  total_input : Nat
  invalid_records : Nat
  filtered_by_region : Nat
  filtered_by_amount : Nat
  final_count : Nat
deriving Repr, DecidableEq

/-- `region and txn['Region'].lower() != region.lower()`: the region filter
fires only when a non-empty region was supplied (Python truthiness of the
optional string) and the lowercased names differ. -/
def regionMismatch (region : Option String) (t : Transaction) : Bool :=
  match region with
  | none => false
  | some r => decide (r ≠ "") && decide (pyLower t.region ≠ pyLower r)

/-- `min_amount is not None and total < min_amount`. -/
def belowMin (mn : Option ℚ) (t : Transaction) : Bool :=
  match mn with
  | none => false
  | some m => decide (amount t < m)

/-- `max_amount is not None and total > max_amount`. -/
def aboveMax (mx : Option ℚ) (t : Transaction) : Bool :=
  match mx with
  | none => false
  | some m => decide (m < amount t)

/-- The `for txn in transactions` loop of `validate_and_filter_data`;
returns (surviving records, invalid count, filtered-by-region count,
filtered-by-amount count).  Each record takes exactly one branch, in the
source's short-circuit order: structural checks, then region filter, then
amount filter. -/
def validateLoop (region : Option String) (mn mx : Option ℚ) :
    List Transaction → List Transaction × Nat × Nat × Nat
  | [] => ([], 0, 0, 0)
  | t :: rest =>
      let r := validateLoop region mn mx rest
      if t.quantity ≤ 0 ∨ t.unitPrice ≤ 0 then (r.1, r.2.1 + 1, r.2.2.1, r.2.2.2)
      else if t.region = "" ∨ t.customerID = "" then (r.1, r.2.1 + 1, r.2.2.1, r.2.2.2)
      else if pyStartsWithT t.transactionID = false then (r.1, r.2.1 + 1, r.2.2.1, r.2.2.2)
      else if regionMismatch region t then (r.1, r.2.1, r.2.2.1 + 1, r.2.2.2)
      else if belowMin mn t then (r.1, r.2.1, r.2.2.1, r.2.2.2 + 1)
      else if aboveMax mx t then (r.1, r.2.1, r.2.2.1, r.2.2.2 + 1)
      else (t :: r.1, r.2.1, r.2.2.1, r.2.2.2)

/-- `validate_and_filter_data(transactions, region, min_amount, max_amount)`:
returns `(valid_txns, invalid_count, summary)`. -/
def validate_and_filter_data (transactions : List Transaction)
    (region : Option String := none) (min_amount : Option ℚ := none)
    (max_amount : Option ℚ := none) : List Transaction × Nat × VSummary :=
  let r := validateLoop region min_amount max_amount transactions
  (r.1, r.2.1, ⟨transactions.length, r.2.1, r.2.2.1, r.2.2.2, r.1.length⟩)

/-! ## Analytics engine (data_processor.py 77–251) -/

/-- `calculate_total_revenue`: sum of `Quantity * UnitPrice`. -/
def calculate_total_revenue (transactions : List Transaction) : ℚ :=
  (transactions.map amount).sum

/-- The `if key not in d: d[key] = init` / `d[key] = f(d[key])` idiom on an
insertion-ordered dictionary: update in place when the key exists,
otherwise append `(k, f init)` at the end. -/
def upsert {ν : Type} (k : String) (init : ν) (f : ν → ν) :
    List (String × ν) → List (String × ν)
  | [] => [(k, f init)]
  | (k', v) :: rest => if k = k' then (k', f v) :: rest else (k', v) :: upsert k init f rest

/-- Accumulator entry of `region_stats`. -/
structure RegionAcc where
  total_sales : ℚ
  transaction_count : Nat
deriving Repr, DecidableEq

/-- The aggregation loop of `region_wise_sales` (step 1 in the source). -/
def regionFold (transactions : List Transaction) : List (String × RegionAcc) :=
  transactions.foldl
    (fun m t =>
      upsert t.region ⟨0, 0⟩
        (fun s => ⟨s.total_sales + amount t, s.transaction_count + 1⟩) m)
    []

/-- One formatted entry of the `region_wise_sales` result. -/
structure RegionStats where
  total_sales : ℚ
  transaction_count : Nat
  percentage : ℚ
deriving Repr, DecidableEq

/-- `region_wise_sales`: aggregate per region, compute the rounded share of
the grand total (0 when the grand total is not positive), and sort by
rounded `total_sales` descending (stable). -/
def region_wise_sales (transactions : List Transaction) : List (String × RegionStats) :=
  let total_revenue := calculate_total_revenue transactions
  let final_stats := (regionFold transactions).map
    (fun p =>
      (p.1, RegionStats.mk (round2 p.2.total_sales) p.2.transaction_count
        (round2 (if 0 < total_revenue then p.2.total_sales / total_revenue * 100 else 0))))
  final_stats.mergeSort (fun a b => decide (b.2.total_sales ≤ a.2.total_sales))

/-- Accumulator entry of `product_map` in `top_selling_products`. -/
structure ProdAcc where
  qty : Int
  rev : ℚ
deriving Repr, DecidableEq

/-- The grouping loop of `top_selling_products`. -/
def productFold (transactions : List Transaction) : List (String × ProdAcc) :=
  transactions.foldl
    (fun m t =>
      upsert t.productName ⟨0, 0⟩
        (fun s => ⟨s.qty + t.quantity, s.rev + amount t⟩) m)
    []

/-- `product_list`: the grouped `(ProductName, TotalQuantity, round(TotalRevenue, 2))`
tuples, in first-encounter order. -/
def productList (transactions : List Transaction) : List (String × Int × ℚ) :=
  (productFold transactions).map (fun p => (p.1, p.2.qty, round2 p.2.rev))

/-- `top_selling_products(transactions, n)`: sort by quantity descending
(stable) and keep the first `n`. -/
def top_selling_products (transactions : List Transaction) (n : Nat := 5) :
    List (String × Int × ℚ) :=
  ((productList transactions).mergeSort (fun a b => decide (b.2.1 ≤ a.2.1))).take n

/-- `low_performing_products(transactions, threshold)`: reuse
`top_selling_products` with `n=1000`, keep totals strictly below the
threshold, sort ascending. -/
def low_performing_products (transactions : List Transaction) (threshold : Int := 10) :
    List (String × Int × ℚ) :=
  let all_products := top_selling_products transactions 1000
  let low_performers := all_products.filter (fun p => decide (p.2.1 < threshold))
  low_performers.mergeSort (fun a b => decide (a.2.1 ≤ b.2.1))

/-- Python `set.add` on a set modelled as a duplicate-free list. -/
def setAdd (x : String) (s : List String) : List String :=
  if x ∈ s then s else s ++ [x]

/-- Accumulator entry of `cust_stats` in `customer_analysis`. -/
structure CustAcc where
  total_spent : ℚ
  purchase_count : Nat
  products_bought : List String
deriving Repr, DecidableEq

/-- The accumulation loop of `customer_analysis`. -/
def customerFold (transactions : List Transaction) : List (String × CustAcc) :=
  transactions.foldl
    (fun m t =>
      upsert t.customerID ⟨0, 0, []⟩
        (fun s =>
          ⟨s.total_spent + amount t, s.purchase_count + 1,
            setAdd t.productName s.products_bought⟩) m)
    []

/-- One formatted entry of the `customer_analysis` result. -/
structure CustStats where
  total_spent : ℚ
  purchase_count : Nat
  avg_order_value : ℚ
  products_bought : List String
deriving Repr, DecidableEq

/-- `customer_analysis`: format the accumulated statistics (the division
`total_spent / purchase_count` is the one guarded by the safety claim) and
sort by `total_spent` descending. -/
def customer_analysis (transactions : List Transaction) : List (String × CustStats) :=
  ((customerFold transactions).map
      (fun p =>
        (p.1, CustStats.mk (round2 p.2.total_spent) p.2.purchase_count
          (round2 (p.2.total_spent / (p.2.purchase_count : ℚ))) p.2.products_bought))).mergeSort
    (fun a b => decide (b.2.total_spent ≤ a.2.total_spent))

/-! ## Catalog mapping (`create_product_mapping`, api_handler.py 34–49) -/

/-- One catalog object as returned by the product-listing service; `id` is
`none` when the field is missing or `None`. -/
structure ApiProduct where
  id : Option Int
  title : String
  category : String
  brand : String
  rating : ℚ
deriving Repr, DecidableEq

/-- The value stored in the catalog mapping. -/
structure CatalogInfo where
  title : String
  category : String
  brand : String
  rating : ℚ
deriving Repr, DecidableEq

/-- `mapping[k] = v` on an insertion-ordered dictionary keyed by `Int`. -/
def dictSet {ν : Type} (k : Int) (v : ν) : List (Int × ν) → List (Int × ν)
  | [] => [(k, v)]
  | (k', v') :: rest => if k = k' then (k, v) :: rest else (k', v') :: dictSet k v rest

/-- `k in mapping` / `mapping[k]` lookup. -/
def dlookup {ν : Type} (k : Int) : List (Int × ν) → Option ν
  | [] => none
  | (k', v) :: rest => if k = k' then some v else dlookup k rest

/-- One iteration of the `create_product_mapping` loop: store the product
under its id only when the id is truthy (`if p_id:` — present, not `None`
and not `0`). -/
def catalogStep (mapping : List (Int × CatalogInfo)) (prod : ApiProduct) :
    List (Int × CatalogInfo) :=
  match prod.id with
  | some p_id =>
      if p_id ≠ 0 then
        dictSet p_id ⟨prod.title, prod.category, prod.brand, prod.rating⟩ mapping
      else mapping
  | none => mapping

/-- `create_product_mapping(api_products)`. -/
def create_product_mapping (api_products : List ApiProduct) : List (Int × CatalogInfo) :=
  api_products.foldl catalogStep []

/-! ## Enrichment engine (`enrich_sales_data`, api_handler.py 51–93)

`main.py` imports `enrich_sales_data` and `save_enriched_data` from
`utils.api_handler`; the later copies of the two functions in
`utils/data_processor.py` (lines 256–322) are shadowed and never called,
so the api_handler versions are the ones embedded here. -/

/-- A transaction with the four `API_*` fields added; the original record
is kept whole (`txn.copy()` plus new keys). -/
structure EnrichedTransaction where
  txn : Transaction
  api_category : String
  api_brand : String
  api_rating : ℚ
  api_match : Bool
deriving Repr, DecidableEq

/-- `''.join(filter(str.isdigit, prod_id_str))`: the digit characters of
the product id, in order. -/
def extractDigits (s : String) : List Char := s.data.filter Char.isDigit

/-- The body of the enrichment loop: start from the `'None'`/`0.0`/`False`
defaults, keep them when the digit string is empty or the id is absent
from the mapping, otherwise copy the catalog entry and set the match flag.
(`int` on a non-empty all-digit string cannot raise, so the
`except ValueError` branch of the source is dead.) -/
def enrichOne (product_mapping : List (Int × CatalogInfo)) (txn : Transaction) :
    EnrichedTransaction :=
  let clean := extractDigits txn.productID
  if clean = [] then ⟨txn, "None", "None", 0, false⟩
  else
    match dlookup (digitsVal clean : Int) product_mapping with
    | some info => ⟨txn, info.category, info.brand, info.rating, true⟩
    | none => ⟨txn, "None", "None", 0, false⟩

/-- `enrich_sales_data(transactions, product_mapping)`: one output record
per input record, in order. -/
def enrich_sales_data (transactions : List Transaction)
    (product_mapping : List (Int × CatalogInfo)) : List EnrichedTransaction :=
  transactions.map (enrichOne product_mapping)

/-- The numeric id of a `ProductID`, written from the spec's words: remove
all non-digit characters; `none` when nothing remains. -/
def extractNumericId (s : String) : Option Int :=
  let ds := s.data.filter Char.isDigit
  if ds = [] then none else some (digitsVal ds)

/-- Comparison definition for the enrichment claim, following the spec's
words (§4.4): extract the numeric id; on a missing id or a lookup miss
produce the not-found sentinels with `API_Match=false`, otherwise copy the
catalog entry's category/brand/rating with `API_Match=true`. -/
def enrichSpecModel (product_mapping : List (Int × CatalogInfo)) (txn : Transaction) :
    EnrichedTransaction :=
  match extractNumericId txn.productID with
  | none => ⟨txn, "None", "None", 0, false⟩
  | some nid =>
      match dlookup nid product_mapping with
      | none => ⟨txn, "None", "None", 0, false⟩
      | some info => ⟨txn, info.category, info.brand, info.rating, true⟩

/-! ## Persistence writer (`save_enriched_data`, api_handler.py 95–139) -/

/-- Big-endian decimal digit characters of a natural number. -/
def natDigitsBE (m : Nat) : List Char :=
  if m = 0 then ['0'] else ((Nat.digits 10 m).map digitChar).reverse

/-- Decimal string of a natural number. -/
def natRepr (m : Nat) : String := ⟨natDigitsBE m⟩

/-- Model of Python `str(int)`: optional minus sign, then digits. -/
def intRepr (n : Int) : String :=
  if n < 0 then "-" ++ natRepr n.natAbs else natRepr n.natAbs

/-- Pad on the left with `c` up to length `n`. -/
def leftPad (c : Char) (n : Nat) (l : List Char) : List Char :=
  List.replicate (n - l.length) c ++ l

/-- The digits of `m / 10^k` with an explicit decimal point and `k`
fractional digits. -/
def decimalChars (m k : Nat) : List Char :=
  let padded := leftPad '0' (k + 1) (natDigitsBE m)
  padded.take (padded.length - k) ++ '.' :: padded.drop (padded.length - k)

/-- Model of Python `str(float)` for the decimal rationals the pipeline
produces: write `|q|` as `digits.digits` using `q.den` fractional digits
(every float is a dyadic rational, so its denominator always divides
`10 ^ q.den` and the fallback branch is unreachable for genuine floats). -/
def ratRepr (q : ℚ) : String :=
  if q.den ∣ 10 ^ q.den then
    let m := q.num.natAbs * (10 ^ q.den / q.den)
    let s : String := ⟨decimalChars m q.den⟩
    if q < 0 then "-" ++ s else s
  else "0.0"

/-- Model of Python `str(bool)`. -/
def boolRepr (b : Bool) : String := if b then "True" else "False"

/-- One data row of the enriched file: the 8 core fields followed by the
4 API fields, joined with `'|'`. -/
def rowOf (e : EnrichedTransaction) : String :=
  joinPipe
    [e.txn.transactionID, e.txn.date, e.txn.productID, e.txn.productName,
     intRepr e.txn.quantity, ratRepr e.txn.unitPrice, e.txn.customerID, e.txn.region,
     e.api_category, e.api_brand, ratRepr e.api_rating, boolRepr e.api_match]

/-- The header row written by `save_enriched_data`. -/
def saveHeader : String :=
  "TransactionID|Date|ProductID|ProductName|Quantity|UnitPrice|CustomerID|Region|API_Category|API_Brand|API_Rating|API_Match"

/-- `save_enriched_data(enriched_transactions)`: `none` models the early
`return` on an empty record set (no file content produced); otherwise the
written lines are the header followed by one row per record. -/
def save_enriched_data (enriched_transactions : List EnrichedTransaction) :
    Option (List String) :=
  if enriched_transactions = [] then none
  else some (saveHeader :: enriched_transactions.map rowOf)

/-- "Ignoring the API columns": keep the first 8 pipe-separated fields of a
written row. -/
def dropAPIColumns (line : String) : String := joinPipe ((splitPipe line).take 8)

/-! ## Report writer (`generate_sales_report`, report_generator.py 4–134)

The report is modelled as the list of strings passed to `f.write`, one
element per call, trailing newlines dropped.  Python's cosmetic
`"{:,.2f}"`/fixed-width formatting is rendered with the plain decimal
writer `ratRepr` (the spec's §6 declares column widths cosmetic); the
generation timestamp is the explicit `now` argument. -/

/-- First-occurrence deduplication, the model used for Python `set(...)`
iteration (CPython's set order is unspecified). -/
def firstOccur (l : List String) : List String :=
  l.foldl (fun acc r => if r ∈ acc then acc else acc ++ [r]) []

/-- `max(items, key=lambda x: x[1])`: the first item carrying the maximal
value. -/
def argmaxFirst : List (String × ℚ) → Option (String × ℚ)
  | [] => none
  | x :: xs => some (xs.foldl (fun b y => if b.2 < y.2 then y else b) x)

/-- Money/number rendering stand-in for the `"{:,.2f}"` format. -/
def fmt2 (q : ℚ) : String := ratRepr (round2 q)

/-- The per-region tuples `(region, sales, pct, count, avg)` of the report,
sorted by sales descending. -/
def reportRegionData (transactions : List Transaction) : List (String × ℚ × ℚ × Nat × ℚ) :=
  let total_revenue := calculate_total_revenue transactions
  let regions := firstOccur (transactions.map (fun t => t.region))
  let region_data := regions.map (fun r =>
    let r_txns := transactions.filter (fun t => t.region = r)
    let r_sales := (r_txns.map amount).sum
    let r_count := r_txns.length
    let r_pct := if 0 < total_revenue then r_sales / total_revenue * 100 else 0
    let r_avg := if 0 < r_count then r_sales / (r_count : ℚ) else 0
    (r, r_sales, r_pct, r_count, r_avg))
  region_data.mergeSort (fun a b => decide (b.2.1 ≤ a.2.1))

/-- The `product_sales` name → revenue dictionary of the report. -/
def reportProductSales (transactions : List Transaction) : List (String × ℚ) :=
  transactions.foldl
    (fun m t => upsert t.productName 0 (fun s => s + amount t) m) []

/-- The `daily_sales` date → revenue dictionary of the report. -/
def reportDailySales (transactions : List Transaction) : List (String × ℚ) :=
  transactions.foldl
    (fun m t => upsert t.date 0 (fun s => s + amount t) m) []

/-- `generate_sales_report(transactions, enriched_transactions)`: the lines
written to the report file.  There is no emptiness guard — the sections
are written unconditionally, with the empty-data fallbacks (`"N/A"` date
range, zero averages) of the source. -/
def generate_sales_report (now : String) (transactions : List Transaction)
    (enriched_transactions : List EnrichedTransaction) : List String :=
  let total_revenue := calculate_total_revenue transactions
  let total_txns := transactions.length
  let avg_order_value := if 0 < total_txns then total_revenue / (total_txns : ℚ) else 0
  let dates := transactions.map (fun t => t.date)
  let date_range :=
    match dates with
    | [] => "N/A"
    | d :: ds => ds.foldl min d ++ " to " ++ ds.foldl max d
  let region_data := reportRegionData transactions
  let product_sales := reportProductSales transactions
  let top_products := (product_sales.mergeSort (fun a b => decide (b.2 ≤ a.2))).take 5
  let total_enriched_input := enriched_transactions.length
  let successful_enrichment := (enriched_transactions.filter (fun t => t.api_match)).length
  let failed_products :=
    firstOccur ((enriched_transactions.filter (fun t => !t.api_match)).map
      (fun t => t.txn.productID))
  let success_rate :=
    if 0 < total_enriched_input then
      (successful_enrichment : ℚ) / (total_enriched_input : ℚ) * 100
    else 0
  let best_day := (argmaxFirst (reportDailySales transactions)).getD ("N/A", 0)
  let sep50 := String.mk (List.replicate 50 '=')
  let dash50 := String.mk (List.replicate 50 '-')
  let dash65 := String.mk (List.replicate 65 '-')
  let low_performers := (product_sales.filter (fun p => decide (p.2 < 5000))).map
    (fun p => p.1)
  [sep50, "              SALES ANALYTICS REPORT              ", sep50,
   "Generated: " ++ now, "Records Processed: " ++ natRepr total_txns, "",
   dash50, "2. OVERALL SUMMARY", dash50,
   "Total Revenue       : $" ++ fmt2 total_revenue,
   "Total Transactions  : " ++ natRepr total_txns,
   "Average Order Value : $" ++ fmt2 avg_order_value,
   "Date Range          : " ++ date_range, "",
   dash65, "3. REGION-WISE PERFORMANCE", dash65,
   "Region          | Sales ($)       | % Total    | Txns  | Avg Order", dash65]
  ++ region_data.map (fun p =>
       p.1 ++ " | " ++ fmt2 p.2.1 ++ " | " ++ fmt2 p.2.2.1 ++ "% | "
         ++ natRepr p.2.2.2.1 ++ " | " ++ fmt2 p.2.2.2.2)
  ++ ["", dash50, "4. TOP 5 BEST SELLING PRODUCTS", dash50]
  ++ (top_products.enum.map (fun p =>
       natRepr (p.1 + 1) ++ ". " ++ p.2.1 ++ " : $" ++ fmt2 p.2.2))
  ++ ["", dash50, "7. PRODUCT & SALES ANALYSIS INSIGHTS", dash50,
      "Best Selling Day: " ++ best_day.1 ++ " (Revenue: $" ++ fmt2 best_day.2 ++ ")",
      if low_performers ≠ [] then
        "Low Performing Products (Revenue < $5k): " ++ String.intercalate ", " low_performers
      else "Low Performing Products: None found below threshold.", "",
      dash50, "8. API ENRICHMENT SUMMARY", dash50,
      "Total Products Processed : " ++ natRepr total_enriched_input,
      "Successfully Enriched    : " ++ natRepr successful_enrichment,
      "Enrichment Success Rate  : " ++ fmt2 success_rate ++ "%",
      if failed_products ≠ [] then
        "Products Not Found in API: [" ++ String.intercalate ", " (failed_products.take 5)
          ++ "] ..."
      else "Products Not Found in API: None (All matched!)",
      sep50, "END OF REPORT"]

/-! ## Concrete sample data -/

/-- The first record of the spec's end-to-end scenario. -/
def widgetTxn : Transaction :=
  ⟨"T1", "2024-01-01", "P101", "Widget", 2, 10, "C1", "North"⟩

/-- The second record of the spec's end-to-end scenario (quantity 0). -/
def gadgetTxn : Transaction :=
  ⟨"T2", "2024-01-01", "P999", "Gadget", 0, 5, "C2", "South"⟩

/-- A catalog whose only entry carries the falsy id `0`. -/
def zeroIdCatalog : List ApiProduct :=
  [⟨some 0, "Essence Mascara", "beauty", "Essence", 9 / 2⟩]

/-- A transaction whose `ProductID` digit-extraction yields `0`. -/
def pZeroTxn : Transaction :=
  ⟨"T9", "2024-01-02", "P0", "Thing", 1, 2, "C9", "East"⟩

/-- The shape invariant every record produced by `parseLine` satisfies:
string fields contain no `'|'`; all but `ProductName` are
whitespace-trimmed; `ProductName` contains no comma (stripping happened
before comma removal, so it need not be trimmed); the unit price is a
decimal rational (it came from a decimal literal). -/
def wellFormedTxn (t : Transaction) : Prop :=
  ('|' ∉ t.transactionID.data ∧ pyStrip t.transactionID = t.transactionID) ∧
  ('|' ∉ t.date.data ∧ pyStrip t.date = t.date) ∧
  ('|' ∉ t.productID.data ∧ pyStrip t.productID = t.productID) ∧
  ('|' ∉ t.productName.data ∧ ',' ∉ t.productName.data) ∧
  ('|' ∉ t.customerID.data ∧ pyStrip t.customerID = t.customerID) ∧
  ('|' ∉ t.region.data ∧ pyStrip t.region = t.region) ∧
  t.unitPrice.den ∣ 10 ^ t.unitPrice.den

/-- 1001 one-unit transactions with pairwise-distinct product names —
more product groups than the hard-coded `n=1000` cap of
`low_performing_products`. -/
def manyTxns : List Transaction :=
  (List.range 1001).map (fun i => ⟨"T1", "2024-01-01", "P1", natRepr i, 1, 1, "C1", "North"⟩)

/-- A raw line whose `ProductName` field is `", x"`: the parser strips
before removing commas, so the stored name keeps a leading space. -/
def commaNameLine : String := "T1|2024-01-01|P1|, x|2|10.00|C1|North"

/-! ## Theorems -/

/-- Every record surviving `validateLoop` passed the three structural
checks. -/
theorem mem_validateLoop {region : Option String} {mn mx : Option ℚ} :
    ∀ {txns : List Transaction} {t : Transaction},
      t ∈ (validateLoop region mn mx txns).1 →
      ¬(t.quantity ≤ 0 ∨ t.unitPrice ≤ 0) ∧ ¬(t.region = "" ∨ t.customerID = "") ∧
        pyStartsWithT t.transactionID = true := by
  intro txns
  induction txns with
  | nil => intro t ht; simp [validateLoop] at ht
  | cons a rest ih =>
      intro t ht
      simp only [validateLoop] at ht
      split_ifs at ht with h1 h2 h3 h4 h5 h6
      · exact ih ht
      · exact ih ht
      · exact ih ht
      · exact ih ht
      · exact ih ht
      · exact ih ht
      · rcases List.mem_cons.mp ht with rfl | hmem
        · refine ⟨h1, h2, ?_⟩
          cases hb : pyStartsWithT t.transactionID with
          | false => exact absurd hb h3
          | true => rfl
        · exact ih hmem

/-- C1 (confirmed): every record in the output of
`validate_and_filter_data` satisfies the structural invariant —
`Quantity > 0`, `UnitPrice > 0`, non-empty `Region` and `CustomerID`, and
a `TransactionID` starting with the reserved letter `'T'` — for every
input list and every combination of optional filters. -/
theorem validated_output_invariant (txns : List Transaction)
    (region : Option String) (mn mx : Option ℚ) (t : Transaction)
    (ht : t ∈ (validate_and_filter_data txns region mn mx).1) :
    0 < t.quantity ∧ 0 < t.unitPrice ∧ t.region ≠ "" ∧ t.customerID ≠ "" ∧
      pyStartsWithT t.transactionID = true := by
  have h := @mem_validateLoop region mn mx txns t ht
  push_neg at h
  exact ⟨h.1.1, h.1.2, h.2.1.1, h.2.1.2, h.2.2⟩

/-- Witness for C1: the invariant holds for the surviving record of a
concrete one-record run. -/
theorem validated_output_invariant_witness :
    0 < widgetTxn.quantity ∧ 0 < widgetTxn.unitPrice ∧ widgetTxn.region ≠ "" ∧
      widgetTxn.customerID ≠ "" ∧ pyStartsWithT widgetTxn.transactionID = true :=
  validated_output_invariant [widgetTxn, gadgetTxn] none none none widgetTxn
    (by with_unfolding_all decide)

/-- In `validateLoop` every input record lands in exactly one of the four
buckets: survivor, invalid, filtered by region, filtered by amount. -/
theorem validateLoop_partition (region : Option String) (mn mx : Option ℚ) :
    ∀ txns : List Transaction,
      (validateLoop region mn mx txns).1.length + (validateLoop region mn mx txns).2.1 +
        (validateLoop region mn mx txns).2.2.1 + (validateLoop region mn mx txns).2.2.2 =
        txns.length := by
  intro txns
  induction txns with
  | nil => simp [validateLoop]
  | cons a rest ih =>
      simp only [validateLoop, List.length_cons]
      split_ifs <;> simp only [List.length_cons] <;> omega

/-- C2 (amended): the summary counters always satisfy
`final_count + invalid_records + filtered_by_region + filtered_by_amount
= total_input`; the four counters are a single partition of the input
(the structural-first ordering only decides which counter absorbs a
record, not whether one does). -/
theorem summary_counters_partition_input (txns : List Transaction)
    (region : Option String) (mn mx : Option ℚ) :
    (validate_and_filter_data txns region mn mx).2.2.final_count +
      (validate_and_filter_data txns region mn mx).2.2.invalid_records +
      (validate_and_filter_data txns region mn mx).2.2.filtered_by_region +
      (validate_and_filter_data txns region mn mx).2.2.filtered_by_amount =
      (validate_and_filter_data txns region mn mx).2.2.total_input := by
  simpa [validate_and_filter_data] using validateLoop_partition region mn mx txns

/-- C2 (counterexample to the claim as stated): there is no input list and
no filter combination on which the four counters fail to sum to
`total_input`. -/
theorem summary_counters_no_gap :
    ¬ ∃ (txns : List Transaction) (region : Option String) (mn mx : Option ℚ),
        (validate_and_filter_data txns region mn mx).2.2.final_count +
          (validate_and_filter_data txns region mn mx).2.2.invalid_records +
          (validate_and_filter_data txns region mn mx).2.2.filtered_by_region +
          (validate_and_filter_data txns region mn mx).2.2.filtered_by_amount ≠
          (validate_and_filter_data txns region mn mx).2.2.total_input := by
  rintro ⟨txns, region, mn, mx, h⟩
  exact h (by simpa [validate_and_filter_data] using validateLoop_partition region mn mx txns)

/-- Every entry of `upsert k init f m` is an old entry of `m` or carries
an `f`-updated value. -/
theorem mem_upsert {ν : Type} {k : String} {init : ν} {f : ν → ν} :
    ∀ {m : List (String × ν)} {p : String × ν},
      p ∈ upsert k init f m → p ∈ m ∨ ∃ v, p = (k, f v) := by
  intro m
  induction m with
  | nil =>
      intro p hp
      simp only [upsert, List.mem_singleton] at hp
      exact Or.inr ⟨init, hp⟩
  | cons a rest ih =>
      intro p hp
      rw [upsert] at hp
      split_ifs at hp with hk
      · rcases List.mem_cons.mp hp with rfl | hmem
        · exact Or.inr ⟨a.2, by rw [hk]⟩
        · exact Or.inl (List.mem_cons_of_mem _ hmem)
      · rcases List.mem_cons.mp hp with rfl | hmem
        · exact Or.inl (List.mem_cons_self _ _)
        · rcases ih hmem with h | h
          · exact Or.inl (List.mem_cons_of_mem _ h)
          · exact Or.inr h

/-- Invariant propagation for the `customer_analysis` accumulation loop:
once every entry has a positive purchase count, it stays positive. -/
theorem customerFold_go_pos :
    ∀ (txns : List Transaction) (m : List (String × CustAcc)),
      (∀ p ∈ m, 1 ≤ (p.2 : CustAcc).purchase_count) →
      ∀ p ∈ txns.foldl
          (fun m t =>
            upsert t.customerID ⟨0, 0, []⟩
              (fun s =>
                ⟨s.total_spent + amount t, s.purchase_count + 1,
                  setAdd t.productName s.products_bought⟩) m)
          m,
        1 ≤ (p.2 : CustAcc).purchase_count := by
  intro txns
  induction txns with
  | nil => intro m hm p hp; exact hm p hp
  | cons a rest ih =>
      intro m hm p hp
      refine ih _ ?_ p hp
      intro q hq
      rcases mem_upsert hq with h | ⟨v, rfl⟩
      · exact hm q h
      · simp

/-- C10 (confirmed): in `customer_analysis`, every `CustomerID` key of the
accumulated statistics has `purchase_count ≥ 1`, so the division
`total_spent / purchase_count` never divides by zero. -/
theorem customer_purchase_count_pos (txns : List Transaction) (c : String)
    (acc : CustAcc) (h : (c, acc) ∈ customerFold txns) : 1 ≤ acc.purchase_count :=
  customerFold_go_pos txns [] (by simp) (c, acc) h

/-- Witness for C10 at a concrete one-transaction run. -/
theorem customer_purchase_count_pos_witness :
    1 ≤ (CustAcc.mk 20 1 ["Widget"]).purchase_count :=
  customer_purchase_count_pos [widgetTxn] "C1" ⟨20, 1, ["Widget"]⟩
    (by with_unfolding_all decide)

/-- C3 (confirmed): enrichment is exactly the spec's per-record join — it
extracts the numeric id of `ProductID` by deleting all non-digit
characters; when nothing remains or the id misses the catalog it keeps
`API_Match=false` with the `'None'` sentinels and rating `0.0`, otherwise
it copies the catalog entry's category/brand/rating with `API_Match=true`.
The function is total, so a malformed `ProductID` can only resolve to
no-match, never abort the run. -/
theorem enrich_matches_spec (txns : List Transaction)
    (product_mapping : List (Int × CatalogInfo)) :
    enrich_sales_data txns product_mapping = txns.map (enrichSpecModel product_mapping) := by
  unfold enrich_sales_data
  refine List.map_congr_left (fun t _ => ?_)
  unfold enrichOne enrichSpecModel extractNumericId extractDigits
  by_cases h : t.productID.data.filter Char.isDigit = []
  · simp [h]
  · simp only [h, if_neg h, if_false]
    cases dlookup ((digitsVal (t.productID.data.filter Char.isDigit) : Int)) product_mapping with
    | none => simp
    | some info => simp

/-- Every entry of `dictSet k v m` is the new pair or an old entry. -/
theorem mem_dictSet {ν : Type} {k : Int} {v : ν} :
    ∀ {m : List (Int × ν)} {p : Int × ν}, p ∈ dictSet k v m → p = (k, v) ∨ p ∈ m := by
  intro m
  induction m with
  | nil => intro p hp; simp only [dictSet, List.mem_singleton] at hp; exact Or.inl hp
  | cons a rest ih =>
      intro p hp
      rw [dictSet] at hp
      split_ifs at hp with hk
      · rcases List.mem_cons.mp hp with rfl | hmem
        · exact Or.inl rfl
        · exact Or.inr (List.mem_cons_of_mem _ hmem)
      · rcases List.mem_cons.mp hp with rfl | hmem
        · exact Or.inr (List.mem_cons_self _ _)
        · rcases ih hmem with h | h
          · exact Or.inl h
          · exact Or.inr (List.mem_cons_of_mem _ h)

/-- An entry of `catalogStep m prod` is an old entry or carries the
product's non-zero id. -/
theorem mem_catalogStep {m : List (Int × CatalogInfo)} {prod : ApiProduct}
    {p : Int × CatalogInfo} (hp : p ∈ catalogStep m prod) :
    p ∈ m ∨ ((p : Int × CatalogInfo).1 ≠ 0 ∧ prod.id = some p.1) := by
  unfold catalogStep at hp
  split at hp
  next pid hid =>
    split_ifs at hp with hz
    · rcases mem_dictSet hp with rfl | hmem
      · exact Or.inr ⟨hz, hid⟩
      · exact Or.inl hmem
    · exact Or.inl hp
  next hid => exact Or.inl hp

/-- Every key of the `create_product_mapping` fold is the non-zero id of
some input product (or was already present). -/
theorem mem_create_foldl :
    ∀ (products : List ApiProduct) (m : List (Int × CatalogInfo)) (p : Int × CatalogInfo),
      p ∈ products.foldl catalogStep m →
      p ∈ m ∨ ((p : Int × CatalogInfo).1 ≠ 0 ∧ ∃ q ∈ products, q.id = some p.1) := by
  intro products
  induction products with
  | nil => intro m p hp; exact Or.inl hp
  | cons a rest ih =>
      intro m p hp
      simp only [List.foldl_cons] at hp
      rcases ih _ p hp with h | ⟨h0, q, hq, hqs⟩
      · rcases mem_catalogStep h with h' | ⟨h0, hid⟩
        · exact Or.inl h'
        · exact Or.inr ⟨h0, a, List.mem_cons_self _ _, hid⟩
      · exact Or.inr ⟨h0, q, List.mem_cons_of_mem _ hq, hqs⟩

/-- Lookup misses every key that no entry carries. -/
theorem dlookup_eq_none_of_forall {ν : Type} {k : Int} :
    ∀ {m : List (Int × ν)}, (∀ p ∈ m, (p : Int × ν).1 ≠ k) → dlookup k m = none := by
  intro m
  induction m with
  | nil => intro _; rfl
  | cons a rest ih =>
      intro hm
      rw [dlookup]
      rw [if_neg (fun hk => hm a (List.mem_cons_self _ _) hk.symm)]
      exact ih (fun p hp => hm p (List.mem_cons_of_mem _ hp))

/-- C9 (confirmed): `create_product_mapping` drops every catalog product
with a missing, `None` or `0` id — each mapping entry's key is the
non-zero id of some input product — so the key `0` never occurs, and a
transaction whose `ProductID` digit-extraction yields `0` can never match,
whatever the catalog contents. -/
theorem zero_id_never_matches (products : List ApiProduct) (txn : Transaction)
    (h : extractNumericId txn.productID = some 0) :
    dlookup 0 (create_product_mapping products) = none ∧
      (enrichOne (create_product_mapping products) txn).api_match = false ∧
      ∀ p ∈ create_product_mapping products,
        (p : Int × CatalogInfo).1 ≠ 0 ∧ ∃ q ∈ products, q.id = some p.1 := by
  have hmem : ∀ p ∈ create_product_mapping products,
      (p : Int × CatalogInfo).1 ≠ 0 ∧ ∃ q ∈ products, q.id = some p.1 := by
    intro p hp
    rcases mem_create_foldl products [] p hp with h | h
    · simp at h
    · exact h
  have hnone : dlookup 0 (create_product_mapping products) = none :=
    dlookup_eq_none_of_forall (fun p hp => (hmem p hp).1)
  refine ⟨hnone, ?_, hmem⟩
  unfold extractNumericId at h
  unfold enrichOne extractDigits
  by_cases hd : txn.productID.data.filter Char.isDigit = []
  · simp [hd]
  · simp only [hd, if_neg hd, if_false]
    simp only [hd, if_neg hd, if_false] at h
    have hv : ((digitsVal (txn.productID.data.filter Char.isDigit) : Int)) = 0 := by
      simpa using h
    rw [hv, hnone]

/-- Witness for C9: a catalog entry with id `0` is invisible to a
transaction with `ProductID = "P0"`. -/
theorem zero_id_never_matches_witness :
    dlookup 0 (create_product_mapping zeroIdCatalog) = none ∧
      (enrichOne (create_product_mapping zeroIdCatalog) pZeroTxn).api_match = false ∧
      ∀ p ∈ create_product_mapping zeroIdCatalog,
        (p : Int × CatalogInfo).1 ≠ 0 ∧ ∃ q ∈ zeroIdCatalog, q.id = some p.1 :=
  zero_id_never_matches zeroIdCatalog pZeroTxn (by with_unfolding_all decide)

/-- C4 (confirmed): the spec's end-to-end scenario — the two concrete lines
parse to two records, the unfiltered validator drops `T2` (quantity 0)
keeping exactly `[T1]`, the total revenue is `20.00`, and the region
breakdown is a single `North` row with sales `20.00`, one transaction and
`100.0` percent. -/
theorem end_to_end_scenario :
    parse_transactions
        ["T1|2024-01-01|P101|Widget|2|10.00|C1|North",
         "T2|2024-01-01|P999|Gadget|0|5.00|C2|South"] = [widgetTxn, gadgetTxn] ∧
      (validate_and_filter_data [widgetTxn, gadgetTxn] none none none).1 = [widgetTxn] ∧
      calculate_total_revenue [widgetTxn] = 20 ∧
      region_wise_sales [widgetTxn] = [("North", ⟨20, 1, 100⟩)] := by
  with_unfolding_all decide

/-! ### Decimal digit strings: printing and parsing agree -/

theorem charVal_digitChar {d : Nat} (hd : d < 10) : charVal (digitChar d) = d := by
  interval_cases d <;> decide

theorem isDigit_digitChar {d : Nat} (hd : d < 10) : (digitChar d).isDigit = true := by
  interval_cases d <;> decide

theorem digitsVal_foldl :
    ∀ (l : List Char) (a : Nat),
      l.foldl (fun a c => 10 * a + charVal c) a = a * 10 ^ l.length + digitsVal l := by
  intro l
  induction l with
  | nil => intro a; simp [digitsVal]
  | cons c l ih =>
      intro a
      have h1 := ih (10 * a + charVal c)
      have h2 := ih (charVal c)
      simp only [digitsVal, List.foldl_cons] at *
      rw [h1]
      simp only [Nat.mul_zero, Nat.zero_add]
      rw [h2]
      simp only [List.length_cons]
      ring

theorem digitsVal_append (l1 l2 : List Char) :
    digitsVal (l1 ++ l2) = digitsVal l1 * 10 ^ l2.length + digitsVal l2 := by
  unfold digitsVal
  rw [List.foldl_append]
  rw [digitsVal_foldl l2 (List.foldl (fun a c => 10 * a + charVal c) 0 l1)]
  rfl

theorem digitsVal_revMap {L : List Nat} (hL : ∀ d ∈ L, d < 10) :
    digitsVal ((L.map digitChar).reverse) = Nat.ofDigits 10 L := by
  induction L with
  | nil => simp [digitsVal, Nat.ofDigits]
  | cons d L ih =>
      simp only [List.map_cons, List.reverse_cons]
      rw [digitsVal_append]
      have hd : d < 10 := hL d (List.mem_cons_self _ _)
      have : digitsVal [digitChar d] = d := by
        simp [digitsVal, charVal_digitChar hd]
      rw [this, ih (fun x hx => hL x (List.mem_cons_of_mem _ hx))]
      rw [Nat.ofDigits_cons]
      simp
      ring

theorem digitsVal_natDigitsBE (n : Nat) : digitsVal (natDigitsBE n) = n := by
  unfold natDigitsBE
  split_ifs with h
  · simp [h, digitsVal, charVal]
  · rw [digitsVal_revMap (fun d hd => Nat.digits_lt_base (by norm_num) hd)]
    exact Nat.ofDigits_digits 10 n

theorem allDigits_natDigitsBE (n : Nat) : allDigits (natDigitsBE n) = true := by
  unfold natDigitsBE allDigits
  split_ifs with h
  · decide
  · rw [List.all_eq_true]
    intro c hc
    rw [List.mem_reverse, List.mem_map] at hc
    obtain ⟨d, hd, rfl⟩ := hc
    exact isDigit_digitChar (Nat.digits_lt_base (by norm_num) hd)

theorem natRepr_injective : Function.Injective natRepr := by
  intro m n h
  have hd : natDigitsBE m = natDigitsBE n := congrArg String.data h
  calc m = digitsVal (natDigitsBE m) := (digitsVal_natDigitsBE m).symm
    _ = digitsVal (natDigitsBE n) := by rw [hd]
    _ = n := digitsVal_natDigitsBE n

/-! ### Grouping with fresh keys -/

/-- Inserting a fresh key appends at the end of the dictionary. -/
theorem upsert_of_fresh {ν : Type} (k : String) (init : ν) (f : ν → ν) :
    ∀ m : List (String × ν), k ∉ m.map Prod.fst → upsert k init f m = m ++ [(k, f init)] := by
  intro m
  induction m with
  | nil => intro _; rfl
  | cons a rest ih =>
      intro hk
      simp only [List.map_cons, List.mem_cons] at hk
      push_neg at hk
      rw [upsert, if_neg hk.1, ih hk.2]
      rfl

/-- When all product names are distinct and absent from the accumulator,
the grouping loop of `top_selling_products` appends one single-record
group per transaction, in order. -/
theorem productFold_entries :
    ∀ (txns : List Transaction) (m : List (String × ProdAcc)),
      (∀ t ∈ txns, t.productName ∉ m.map Prod.fst) →
      (txns.map (fun t => t.productName)).Nodup →
      txns.foldl
          (fun m t =>
            upsert t.productName ⟨0, 0⟩
              (fun s => ⟨s.qty + t.quantity, s.rev + amount t⟩) m) m =
        m ++ txns.map (fun t => (t.productName, ProdAcc.mk (0 + t.quantity) (0 + amount t))) := by
  intro txns
  induction txns with
  | nil => intro m _ _; simp
  | cons t rest ih =>
      intro m hfresh hnodup
      simp only [List.foldl_cons]
      rw [upsert_of_fresh _ _ _ m (hfresh t (List.mem_cons_self _ _))]
      simp only [List.map_cons, List.nodup_cons] at hnodup
      rw [ih (m ++ [(t.productName, ProdAcc.mk (0 + t.quantity) (0 + amount t))]) ?_ hnodup.2]
      · simp
      · intro s hs
        simp only [List.map_append, List.map_cons, List.mem_append, List.map_nil]
        push_neg
        refine ⟨fun hmem => hfresh s (List.mem_cons_of_mem _ hs) hmem, ?_⟩
        simp only [List.mem_singleton]
        intro hEq
        exact hnodup.1 (hEq ▸ List.mem_map_of_mem (fun t => t.productName) hs)

set_option maxRecDepth 4000 in
/-- C6 (counterexample to the claim as stated): with 1001 distinct
product groups of one unit each and threshold 10, every group qualifies,
yet `low_performing_products` omits at least one group — its
`top_selling_products(n=1000)` reuse caps the result at 1000 groups. -/
theorem low_performers_omit_qualifying_group :
    ¬ (∀ g ∈ productList manyTxns, g.2.1 < 10 →
          g.1 ∈ (low_performing_products manyTxns 10).map (fun p => p.1)) := by
  intro hall
  have hfold : productFold manyTxns =
      manyTxns.map (fun t => (t.productName, ProdAcc.mk (0 + t.quantity) (0 + amount t))) := by
    have hnodup : (manyTxns.map (fun t => t.productName)).Nodup := by
      unfold manyTxns
      rw [List.map_map]
      exact (List.nodup_range 1001).map natRepr_injective
    unfold productFold
    exact productFold_entries manyTxns [] (by simp) hnodup
  have hql : ∀ g ∈ productList manyTxns, g.2.1 = 1 := by
    intro g hg
    unfold productList at hg
    rw [hfold] at hg
    rw [List.map_map, List.mem_map] at hg
    obtain ⟨t, ht, rfl⟩ := hg
    unfold manyTxns at ht
    rw [List.mem_map] at ht
    obtain ⟨i, _, rfl⟩ := ht
    rfl
  have hsub : ((productList manyTxns).map (fun p => p.1)) ⊆
      (low_performing_products manyTxns 10).map (fun p => p.1) := by
    intro x hx
    obtain ⟨g, hg, rfl⟩ := List.mem_map.mp hx
    exact hall g hg (by rw [hql g hg]; norm_num)
  have hnodup : ((productList manyTxns).map (fun p => p.1)).Nodup := by
    unfold productList
    rw [hfold]
    unfold manyTxns
    simp only [List.map_map]
    exact (List.nodup_range 1001).map natRepr_injective
  have hlen1 : ((productList manyTxns).map (fun p => p.1)).length = 1001 := by
    unfold productList
    rw [hfold]
    unfold manyTxns
    simp
  have hlen2 : ((low_performing_products manyTxns 10).map (fun p => p.1)).length ≤ 1000 := by
    rw [List.length_map]
    unfold low_performing_products top_selling_products
    rw [List.length_mergeSort]
    calc (((((productList manyTxns).mergeSort
            (fun a b => decide (b.2.1 ≤ a.2.1))).take 1000).filter
              (fun p => decide (p.2.1 < 10)))).length
        ≤ ((((productList manyTxns).mergeSort
            (fun a b => decide (b.2.1 ≤ a.2.1))).take 1000)).length :=
          List.length_filter_le _ _
      _ ≤ 1000 := by rw [List.length_take]; exact Nat.min_le_left _ _
  have := (List.subperm_of_subset hnodup hsub).length_le
  omega

/-- C6 (amended): whenever the input has at most 1000 distinct product
names, `low_performing_products` returns exactly the product groups (as
grouped by `top_selling_products`) with total quantity strictly below the
threshold — a permutation of the filtered grouping — sorted ascending by
total quantity. -/
theorem low_performing_complete (txns : List Transaction) (threshold : Int)
    (h : (productList txns).length ≤ 1000) :
    (low_performing_products txns threshold).Perm
        ((productList txns).filter (fun p => decide (p.2.1 < threshold))) ∧
      (low_performing_products txns threshold).Pairwise (fun a b => a.2.1 ≤ b.2.1) := by
  unfold low_performing_products top_selling_products
  have hlen : ((productList txns).mergeSort (fun a b => decide (b.2.1 ≤ a.2.1))).length ≤ 1000 := by
    rw [List.length_mergeSort]; exact h
  rw [List.take_of_length_le hlen]
  constructor
  · exact (List.mergeSort_perm _ _).trans ((List.mergeSort_perm _ _).filter _)
  · have hs : (List.mergeSort
        (((productList txns).mergeSort (fun a b => decide (b.2.1 ≤ a.2.1))).filter
          (fun p => decide (p.2.1 < threshold)))
        (fun a b : String × Int × ℚ => decide (a.2.1 ≤ b.2.1))).Pairwise
          (fun a b : String × Int × ℚ => decide (a.2.1 ≤ b.2.1) = true) :=
      List.sorted_mergeSort
        (fun a b c hab hbc => by
          simp only [decide_eq_true_eq] at *
          exact le_trans hab hbc)
        (fun a b => by
          rcases le_total a.2.1 b.2.1 with hab | hba
          · simp [hab]
          · simp [hba])
        (((productList txns).mergeSort (fun a b => decide (b.2.1 ≤ a.2.1))).filter
          (fun p => decide (p.2.1 < threshold)))
    exact hs.imp (fun hab => by simpa using hab)

/-- Witness for C6 (amended) at a concrete two-record input. -/
theorem low_performing_complete_witness :
    (low_performing_products [widgetTxn, gadgetTxn] 10).Perm
        ((productList [widgetTxn, gadgetTxn]).filter (fun p => decide (p.2.1 < 10))) ∧
      (low_performing_products [widgetTxn, gadgetTxn] 10).Pairwise
        (fun a b => a.2.1 ≤ b.2.1) :=
  low_performing_complete [widgetTxn, gadgetTxn] 10 (by with_unfolding_all decide)

/-- C8 (counterexample to the claim as stated): on an empty record set the
Report Writer still produces report content — there is no emptiness guard
in `generate_sales_report`. -/
theorem report_written_for_empty_data :
    generate_sales_report "2026-10-12 00:00:00" [] [] ≠ [] := by
  with_unfolding_all decide

/-- C8 (amended): only the Persistence Writer suppresses writing for an
empty record set (`save_enriched_data` returns before opening the file);
the Report Writer writes its sections unconditionally, producing a
populated report even when both record sets are empty. -/
theorem empty_set_write_behavior :
    save_enriched_data [] = none ∧
      ∀ now : String, generate_sales_report now [] [] ≠ [] := by
  refine ⟨rfl, fun now => ?_⟩
  unfold generate_sales_report
  simp

/-! ### Sums over the region grouping -/

/-- Adding an amount to a region entry (creating it if needed) adds that
amount to the grand total of the accumulator. -/
theorem upsert_region_sum (r : String) (a : ℚ) :
    ∀ m : List (String × RegionAcc),
      ((upsert r ⟨0, 0⟩
            (fun s => ⟨s.total_sales + a, s.transaction_count + 1⟩) m).map
          (fun p => p.2.total_sales)).sum =
        (m.map (fun p => p.2.total_sales)).sum + a := by
  intro m
  induction m with
  | nil => simp [upsert]
  | cons x rest ih =>
      rw [upsert]
      split_ifs with hk
      · simp only [List.map_cons, List.sum_cons]
        ring
      · simp only [List.map_cons, List.sum_cons, ih]
        ring

/-- The region aggregation loop preserves the total amount. -/
theorem regionFold_go_sum :
    ∀ (txns : List Transaction) (m : List (String × RegionAcc)),
      ((txns.foldl
            (fun m t =>
              upsert t.region ⟨0, 0⟩
                (fun s => ⟨s.total_sales + amount t, s.transaction_count + 1⟩) m) m).map
          (fun p => p.2.total_sales)).sum =
        (m.map (fun p => p.2.total_sales)).sum + (txns.map amount).sum := by
  intro txns
  induction txns with
  | nil => intro m; simp
  | cons t rest ih =>
      intro m
      simp only [List.foldl_cons, List.map_cons, List.sum_cons]
      rw [ih]
      rw [upsert_region_sum]
      ring

/-- The grand total of `regionFold` is `calculate_total_revenue`. -/
theorem regionFold_sum (txns : List Transaction) :
    ((regionFold txns).map (fun p => p.2.total_sales)).sum =
      calculate_total_revenue txns := by
  unfold regionFold calculate_total_revenue
  have h := regionFold_go_sum txns []
  simpa using h

/-- Each rounding to two decimals moves a value by at most half a cent. -/
theorem abs_round2_sub (x : ℚ) : |round2 x - x| ≤ 1 / 200 := by
  unfold round2
  have h : |(round (x * 100) : ℚ) - x * 100| ≤ 1 / 2 := by
    rw [abs_sub_comm]
    exact abs_sub_round (x * 100)
  have heq : (round (x * 100) : ℚ) / 100 - x = ((round (x * 100) : ℚ) - x * 100) / 100 := by
    ring
  rw [heq, abs_div]
  rw [show |(100 : ℚ)| = 100 by norm_num]
  linarith

/-- Summed rounding error over a list is at most half a cent per entry. -/
theorem sum_round2_err :
    ∀ l : List ℚ, |(l.map round2).sum - l.sum| ≤ (l.length : ℚ) * (1 / 200) := by
  intro l
  induction l with
  | nil => simp
  | cons x rest ih =>
      simp only [List.map_cons, List.sum_cons, List.length_cons]
      have tri : |round2 x + (rest.map round2).sum - (x + rest.sum)| ≤
          |round2 x - x| + |(rest.map round2).sum - rest.sum| := by
        have : round2 x + (rest.map round2).sum - (x + rest.sum) =
            (round2 x - x) + ((rest.map round2).sum - rest.sum) := by ring
        rw [this]
        exact abs_add _ _
      have := abs_round2_sub x
      push_cast
      push_cast at ih
      linarith

/-- Dividing each element and rescaling distributes over the sum. -/
theorem sum_map_div_mul (r : ℚ) :
    ∀ l : List ℚ, (l.map (fun x => x / r * 100)).sum = l.sum / r * 100 := by
  intro l
  induction l with
  | nil => simp
  | cons x rest ih =>
      simp only [List.map_cons, List.sum_cons, ih]
      ring

/-- C5 (confirmed): for a non-empty list of structurally valid records,
the rounded per-region percentages of `region_wise_sales` sum to 100 up to
half a cent per region, and the rounded per-region sales sum to
`calculate_total_revenue` within the same tolerance. -/
theorem region_breakdown_sums (txns : List Transaction) (hne : txns ≠ [])
    (hval : ∀ t ∈ txns, 0 < t.quantity ∧ 0 < t.unitPrice) :
    |((region_wise_sales txns).map (fun p => p.2.percentage)).sum - 100| ≤
        ((region_wise_sales txns).length : ℚ) * (1 / 200) ∧
      |((region_wise_sales txns).map (fun p => p.2.total_sales)).sum -
          calculate_total_revenue txns| ≤
        ((region_wise_sales txns).length : ℚ) * (1 / 200) := by
  have hrev : 0 < calculate_total_revenue txns := by
    unfold calculate_total_revenue
    apply List.sum_pos
    · intro x hx
      obtain ⟨t, ht, rfl⟩ := List.mem_map.mp hx
      obtain ⟨hq, hp⟩ := hval t ht
      unfold amount
      exact mul_pos (by exact_mod_cast hq) hp
    · simpa using hne
  have hunfold : region_wise_sales txns =
      ((regionFold txns).map
        (fun p =>
          (p.1, RegionStats.mk (round2 p.2.total_sales) p.2.transaction_count
            (round2 (if 0 < calculate_total_revenue txns then
              p.2.total_sales / calculate_total_revenue txns * 100 else 0))))).mergeSort
        (fun a b => decide (b.2.total_sales ≤ a.2.total_sales)) := rfl
  have hperm : (region_wise_sales txns).Perm <|
      (regionFold txns).map
        (fun p =>
          (p.1, RegionStats.mk (round2 p.2.total_sales) p.2.transaction_count
            (round2 (if 0 < calculate_total_revenue txns then
              p.2.total_sales / calculate_total_revenue txns * 100 else 0)))) := by
    rw [hunfold]
    exact List.mergeSort_perm _ _
  have hlen : ((region_wise_sales txns).length : ℚ) = ((regionFold txns).length : ℚ) := by
    rw [hperm.length_eq, List.length_map]
  have hsales := regionFold_sum txns
  constructor
  · have h1 : ((region_wise_sales txns).map (fun p => p.2.percentage)).sum =
        ((((regionFold txns).map (fun p => p.2.total_sales)).map
            (fun x => x / calculate_total_revenue txns * 100)).map round2).sum := by
      rw [(hperm.map (fun p => p.2.percentage)).sum_eq]
      rw [List.map_map, List.map_map, List.map_map]
      congr 1
      apply List.map_congr_left
      intro p _
      simp only [Function.comp]
      rw [if_pos hrev]
    have h2 : (((regionFold txns).map (fun p => p.2.total_sales)).map
        (fun x => x / calculate_total_revenue txns * 100)).sum = 100 := by
      rw [sum_map_div_mul, hsales, div_self (ne_of_gt hrev)]
      norm_num
    rw [h1]
    set l := ((regionFold txns).map (fun p => p.2.total_sales)).map
      (fun x => x / calculate_total_revenue txns * 100) with hl
    rw [← h2]
    have h3 := sum_round2_err l
    simp only [hl, List.length_map] at h3
    rw [hlen]
    exact h3
  · have h1 : ((region_wise_sales txns).map (fun p => p.2.total_sales)).sum =
        (((regionFold txns).map (fun p => p.2.total_sales)).map round2).sum := by
      rw [(hperm.map (fun p => p.2.total_sales)).sum_eq]
      rw [List.map_map, List.map_map]
      rfl
    rw [h1, ← hsales]
    have h3 := sum_round2_err ((regionFold txns).map (fun p => p.2.total_sales))
    simp only [List.length_map] at h3
    rw [hlen]
    exact h3

/-- Witness for C5 at the concrete single-record validated set. -/
theorem region_breakdown_sums_witness :
    |((region_wise_sales [widgetTxn]).map (fun p => p.2.percentage)).sum - 100| ≤
        ((region_wise_sales [widgetTxn]).length : ℚ) * (1 / 200) ∧
      |((region_wise_sales [widgetTxn]).map (fun p => p.2.total_sales)).sum -
          calculate_total_revenue [widgetTxn]| ≤
        ((region_wise_sales [widgetTxn]).length : ℚ) * (1 / 200) :=
  region_breakdown_sums [widgetTxn] (by decide) (by with_unfolding_all decide)

/-! ### Splitting a joined row recovers its fields -/

theorem splitPipeAux_ne_nil : ∀ l : List Char, splitPipeAux l ≠ [] := by
  intro l
  induction l with
  | nil => simp [splitPipeAux]
  | cons c rest ih =>
      rw [splitPipeAux]
      split_ifs
      · simp
      · cases h : splitPipeAux rest with
        | nil => exact absurd h ih
        | cons x xs => simp [h]

theorem splitPipeAux_append_no_pipe :
    ∀ (x rest : List Char) (h : List Char) (t : List (List Char)),
      '|' ∉ x → splitPipeAux rest = h :: t → splitPipeAux (x ++ rest) = (x ++ h) :: t := by
  intro x
  induction x with
  | nil => intro rest h t _ hr; simpa using hr
  | cons c cs ih =>
      intro rest h t hp hr
      simp only [List.mem_cons, not_or] at hp
      rw [List.cons_append, splitPipeAux]
      rw [ih rest h t hp.2 hr]
      rw [if_neg (fun hEq : c = '|' => hp.1 hEq.symm)]
      rfl

theorem splitPipeAux_single {x : List Char} (hp : '|' ∉ x) : splitPipeAux x = [x] := by
  have := splitPipeAux_append_no_pipe x [] [] [] hp rfl
  simpa using this

theorem splitPipeAux_join_prefixed :
    ∀ (xs ys : List (List Char)), (∀ f ∈ xs, '|' ∉ f) → ys ≠ [] →
      splitPipeAux (joinPipeAux (xs ++ ys)) = xs ++ splitPipeAux (joinPipeAux ys) := by
  intro xs
  induction xs with
  | nil => intro ys _ _; rfl
  | cons x xs ih =>
      intro ys hp hy
      have hxy : xs ++ ys ≠ [] := by
        cases xs <;> simp_all
      have hjoin : joinPipeAux ((x :: xs) ++ ys) = x ++ '|' :: joinPipeAux (xs ++ ys) := by
        rw [List.cons_append]
        cases hxs : xs ++ ys with
        | nil => exact absurd hxs hxy
        | cons a as => rfl
      rw [hjoin]
      have hrest : splitPipeAux ('|' :: joinPipeAux (xs ++ ys)) =
          [] :: splitPipeAux (joinPipeAux (xs ++ ys)) := by
        rw [splitPipeAux, if_pos rfl]
      have hih := ih ys (fun f hf => hp f (List.mem_cons_of_mem _ hf)) hy
      rw [splitPipeAux_append_no_pipe x ('|' :: joinPipeAux (xs ++ ys)) []
        (splitPipeAux (joinPipeAux (xs ++ ys))) (hp x (List.mem_cons_self _ _)) hrest]
      rw [hih]
      simp

theorem splitPipeAux_join (xs : List (List Char)) (hp : ∀ f ∈ xs, '|' ∉ f) (hx : xs ≠ []) :
    splitPipeAux (joinPipeAux xs) = xs := by
  rcases List.eq_nil_or_concat xs with rfl | ⟨ys, y, rfl⟩
  · exact absurd rfl hx
  · rw [List.concat_eq_append] at hp ⊢
    rw [splitPipeAux_join_prefixed ys [y]
      (fun f hf => hp f (List.mem_append_left _ hf)) (by simp)]
    rw [show joinPipeAux [y] = y from rfl]
    rw [splitPipeAux_single (hp y (List.mem_append_right _ (List.mem_singleton_self y)))]

/-- String-level: `String.mk` is left inverse of `String.data`. -/
theorem mk_data_eq (s : String) : String.mk s.data = s := rfl

/-- Splitting a join of pipe-free fields followed by anything recovers the
fields as a prefix. -/
theorem splitPipe_joinPipe_prefixed (fs rest : List String)
    (hp : ∀ f ∈ fs, '|' ∉ (f : String).data) (hrest : rest ≠ []) :
    splitPipe (joinPipe (fs ++ rest)) =
      fs ++ (splitPipeAux (joinPipeAux (rest.map String.data))).map String.mk := by
  unfold splitPipe joinPipe
  rw [show (String.mk (joinPipeAux ((fs ++ rest).map String.data))).data =
      joinPipeAux ((fs ++ rest).map String.data) from rfl]
  rw [List.map_append]
  rw [splitPipeAux_join_prefixed (fs.map String.data) (rest.map String.data)
    (by intro f hf; obtain ⟨g, hg, rfl⟩ := List.mem_map.mp hf; exact hp g hg)
    (by simpa using hrest)]
  rw [List.map_append, List.map_map]
  congr 1
  rw [show String.mk ∘ String.data = id from funext mk_data_eq]
  simp

/-- Every field produced by splitting contains no pipe. -/
theorem no_pipe_of_mem_splitPipeAux :
    ∀ (l : List Char) (part : List Char), part ∈ splitPipeAux l → '|' ∉ part := by
  intro l
  induction l with
  | nil =>
      intro part hp
      simp only [splitPipeAux, List.mem_singleton] at hp
      simp [hp]
  | cons c rest ih =>
      intro part hp
      rw [splitPipeAux] at hp
      split_ifs at hp with hc
      · rcases List.mem_cons.mp hp with rfl | hmem
        · simp
        · exact ih part hmem
      · cases hr : splitPipeAux rest with
        | nil => exact absurd hr (splitPipeAux_ne_nil rest)
        | cons h t =>
            rw [hr] at hp
            rcases List.mem_cons.mp hp with rfl | hmem
            · intro hmem2
              rcases List.mem_cons.mp hmem2 with hEq | hmem3
              · exact hc hEq.symm
              · exact ih h (hr ▸ List.mem_cons_self _ _) hmem3
            · exact ih part (hr ▸ List.mem_cons_of_mem _ hmem)

/-! ### `strip` is idempotent and trimmed strings pass through -/

theorem dropWhile_idem (p : Char → Bool) (l : List Char) :
    (l.dropWhile p).dropWhile p = l.dropWhile p := by
  induction l with
  | nil => rfl
  | cons c cs ih =>
      rw [List.dropWhile_cons]
      split_ifs with hc
      · exact ih
      · rw [List.dropWhile_cons, if_neg hc]

theorem dropWhile_eq_self_of_none (p : Char → Bool) (l : List Char)
    (h : ∀ c ∈ l, p c = false) : l.dropWhile p = l := by
  cases l with
  | nil => rfl
  | cons c cs =>
      rw [List.dropWhile_cons, if_neg]
      simp [h c (List.mem_cons_self _ _)]

theorem stripAux_of_no_space {l : List Char} (h : ∀ c ∈ l, isPySpace c = false) :
    stripAux l = l := by
  unfold stripAux dropTrail
  rw [dropWhile_eq_self_of_none _ _ h]
  rw [dropWhile_eq_self_of_none _ _ (fun c hc => h c (List.mem_reverse.mp hc))]
  exact List.reverse_reverse l

theorem dropWhile_of_isPrefix (p : Char → Bool) {l m : List Char}
    (hl : l.dropWhile p = l) (hm : m <+: l) : m.dropWhile p = m := by
  cases m with
  | nil => rfl
  | cons c cs =>
      obtain ⟨r, hr⟩ := hm
      have hc : p c = false := by
        by_cases hpc : p c = true
        · rw [← hr, List.cons_append, List.dropWhile_cons, if_pos hpc] at hl
          have hlen : (List.dropWhile p (cs ++ r)).length ≤ (cs ++ r).length :=
            (List.dropWhile_sublist p).length_le
          rw [hl] at hlen
          simp at hlen
        · simpa using hpc
      rw [List.dropWhile_cons, if_neg (by simp [hc])]

theorem dropTrail_isPrefix (p : Char → Bool) (l : List Char) : dropTrail p l <+: l := by
  unfold dropTrail
  have hs : l.reverse.dropWhile p <:+ l.reverse := List.dropWhile_suffix p
  have := hs.reverse
  rwa [List.reverse_reverse] at this

theorem dropTrail_idem (p : Char → Bool) (l : List Char) :
    dropTrail p (dropTrail p l) = dropTrail p l := by
  unfold dropTrail
  rw [List.reverse_reverse, dropWhile_idem]

theorem stripAux_idem (l : List Char) : stripAux (stripAux l) = stripAux l := by
  have h1 : (stripAux l).dropWhile isPySpace = stripAux l := by
    unfold stripAux
    exact dropWhile_of_isPrefix isPySpace (dropWhile_idem isPySpace l)
      (dropTrail_isPrefix isPySpace (l.dropWhile isPySpace))
  calc stripAux (stripAux l) = dropTrail isPySpace ((stripAux l).dropWhile isPySpace) := rfl
    _ = dropTrail isPySpace (stripAux l) := by rw [h1]
    _ = dropTrail isPySpace (dropTrail isPySpace (l.dropWhile isPySpace)) := rfl
    _ = dropTrail isPySpace (l.dropWhile isPySpace) := dropTrail_idem _ _
    _ = stripAux l := rfl

theorem mem_of_mem_stripAux {c : Char} {l : List Char} (h : c ∈ stripAux l) : c ∈ l := by
  unfold stripAux dropTrail at h
  rw [List.mem_reverse] at h
  have h2 := (List.dropWhile_sublist isPySpace).subset h
  rw [List.mem_reverse] at h2
  exact (List.dropWhile_sublist isPySpace).subset h2

theorem pyStrip_idem (s : String) : pyStrip (pyStrip s) = pyStrip s :=
  congrArg String.mk (stripAux_idem s.data)

/-! ### Digit characters are not syntax characters -/

theorem digit_char_facts {c : Char} (h : c.isDigit = true) :
    c ≠ '-' ∧ c ≠ '+' ∧ c ≠ ',' ∧ c ≠ '|' ∧ c ≠ '.' ∧ isPySpace c = false := by
  refine ⟨?_, ?_, ?_, ?_, ?_, ?_⟩
  · intro hc; rw [hc] at h; exact absurd h (by decide)
  · intro hc; rw [hc] at h; exact absurd h (by decide)
  · intro hc; rw [hc] at h; exact absurd h (by decide)
  · intro hc; rw [hc] at h; exact absurd h (by decide)
  · intro hc; rw [hc] at h; exact absurd h (by decide)
  · cases hsp : isPySpace c with
    | false => rfl
    | true =>
        simp only [isPySpace, Bool.or_eq_true, decide_eq_true_eq] at hsp
        rcases hsp with ((((rfl | rfl) | rfl) | rfl) | rfl) | rfl <;> exact absurd h (by decide)

theorem allDigits_mem {l : List Char} (h : allDigits l = true) {c : Char} (hc : c ∈ l) :
    c.isDigit = true := by
  unfold allDigits at h
  rw [List.all_eq_true] at h
  exact h c hc

theorem natDigitsBE_ne_nil (m : Nat) : natDigitsBE m ≠ [] := by
  unfold natDigitsBE
  split_ifs with h
  · simp
  · simp [Nat.digits_ne_nil_iff_ne_zero.mpr h]

/-! ### `str(int)` and `int(...)` are inverse -/

theorem pyInt_mk_cons (c : Char) (rest : List Char) :
    pyInt ⟨c :: rest⟩ =
      if c = '-' then (pyIntCore rest).map (fun n => -(n : Int))
      else if c = '+' then (pyIntCore rest).map (fun n => (n : Int))
      else (pyIntCore (c :: rest)).map (fun n => (n : Int)) := rfl

theorem pyIntCore_natDigitsBE (m : Nat) : pyIntCore (natDigitsBE m) = some m := by
  unfold pyIntCore
  rw [if_pos ⟨natDigitsBE_ne_nil m, allDigits_natDigitsBE m⟩]
  rw [digitsVal_natDigitsBE]

theorem pyInt_intRepr (n : Int) : pyInt (intRepr n) = some n := by
  unfold intRepr
  split_ifs with hneg
  · have hstr : ("-" ++ natRepr n.natAbs) = (⟨'-' :: natDigitsBE n.natAbs⟩ : String) := rfl
    rw [hstr, pyInt_mk_cons, if_pos rfl, pyIntCore_natDigitsBE]
    exact congrArg some (by show -(n.natAbs : Int) = n; omega)
  · cases hBE : natDigitsBE n.natAbs with
    | nil => exact absurd hBE (natDigitsBE_ne_nil _)
    | cons c cs =>
        have hstr : natRepr n.natAbs = (⟨c :: cs⟩ : String) := by
          unfold natRepr; rw [hBE]
        have hc : c.isDigit = true :=
          allDigits_mem (allDigits_natDigitsBE n.natAbs)
            (hBE ▸ List.mem_cons_self c cs)
        obtain ⟨h1, h2, _, _, _, _⟩ := digit_char_facts hc
        rw [hstr, pyInt_mk_cons, if_neg h1, if_neg h2, ← hBE, pyIntCore_natDigitsBE]
        exact congrArg some (by show ((n.natAbs : Nat) : Int) = n; omega)

/-! ### `str(float)` and `float(...)` are inverse on decimal rationals -/

theorem dvd_ten_pow_self : ∀ d : Nat, 0 < d → ∀ k : Nat, d ∣ 10 ^ k → d ∣ 10 ^ d := by
  intro d
  induction d using Nat.strong_induction_on with
  | _ d ih =>
      intro hd k hk
      by_cases hd1 : d = 1
      · subst hd1; exact one_dvd _
      have hp := Nat.minFac_prime hd1
      have hpd : d.minFac ∣ d := Nat.minFac_dvd d
      have hp10 : d.minFac ∣ 10 := hp.dvd_of_dvd_pow (hpd.trans hk)
      have hppos : 2 ≤ d.minFac := hp.two_le
      obtain ⟨d', hd'⟩ := hpd
      have hd'pos : 0 < d' := by
        rcases Nat.eq_zero_or_pos d' with h0 | h
        · rw [h0, Nat.mul_zero] at hd'; omega
        · exact h
      have h2d : 2 * d' ≤ d := by
        rw [hd']
        exact Nat.mul_le_mul_right d' hppos
      have hd'lt : d' < d := by omega
      have hd'dvd : d' ∣ 10 ^ k := (Dvd.intro_left d.minFac hd'.symm).trans hk
      have ihd := ih d' hd'lt hd'pos k hd'dvd
      have hstep : d ∣ 10 ^ (d' + 1) := by
        rw [hd', pow_succ']
        exact mul_dvd_mul hp10 ihd
      exact hstep.trans (pow_dvd_pow 10 (by omega))

theorem den_dvd_pow_of_eq_div {q : ℚ} {a : Int} {n : Nat}
    (h : q = (a : ℚ) / ((10 : ℚ) ^ n)) : (q.den : Int) ∣ (10 : Int) ^ n := by
  have h10 : ((10 : ℚ) ^ n) = (((10 : Int) ^ n : Int) : ℚ) := by push_cast; ring
  rw [h10, ← Rat.divInt_eq_div] at h
  rw [h]
  exact Rat.den_dvd a ((10 : Int) ^ n)

theorem den_dvd_self_pow_of_pyFloatCore {l : List Char} {q : ℚ}
    (h : pyFloatCore l = some q) : q.den ∣ 10 ^ q.den := by
  have hdec : ∃ n : Nat, (q.den : Int) ∣ (10 : Int) ^ n := by
    unfold pyFloatCore at h
    split at h
    · split_ifs at h with hc
      · refine ⟨0, den_dvd_pow_of_eq_div (a := digitsVal (l.takeWhile (fun c => c ≠ '.'))) ?_⟩
        simp only [Option.some.injEq] at h
        rw [← h]
        push_cast
        ring
    · split_ifs at h with hc
      · simp only [Option.some.injEq] at h
        rename_i fp heq
        refine ⟨fp.length, den_dvd_pow_of_eq_div
          (a := (digitsVal (l.takeWhile (fun c => c ≠ '.')) * 10 ^ fp.length +
            digitsVal fp : Nat)) ?_⟩
        rw [← h]
        push_cast
        have hne : ((10 : ℚ) ^ fp.length) ≠ 0 := by positivity
        field_simp
  obtain ⟨n, hn⟩ := hdec
  have hnat : q.den ∣ 10 ^ n := by
    have h2 : ((q.den : Int)) ∣ (((10 ^ n : Nat) : Int)) := by
      push_cast
      exact hn
    exact_mod_cast h2
  exact dvd_ten_pow_self q.den q.den_pos n hnat

theorem takeWhile_append_sep {p : Char → Bool} :
    ∀ (A : List Char) (c : Char) (B : List Char), (∀ a ∈ A, p a = true) → p c = false →
      (A ++ c :: B).takeWhile p = A := by
  intro A
  induction A with
  | nil =>
      intro c B _ hc
      rw [List.nil_append, List.takeWhile_cons, hc]
      simp
  | cons a A ih =>
      intro c B hA hc
      rw [List.cons_append, List.takeWhile_cons, hA a (List.mem_cons_self _ _)]
      rw [if_pos rfl, ih c B (fun x hx => hA x (List.mem_cons_of_mem _ hx)) hc]

theorem dropWhile_append_sep {p : Char → Bool} :
    ∀ (A : List Char) (c : Char) (B : List Char), (∀ a ∈ A, p a = true) → p c = false →
      (A ++ c :: B).dropWhile p = c :: B := by
  intro A
  induction A with
  | nil =>
      intro c B _ hc
      rw [List.nil_append, List.dropWhile_cons, hc]
      simp
  | cons a A ih =>
      intro c B hA hc
      rw [List.cons_append, List.dropWhile_cons, hA a (List.mem_cons_self _ _)]
      rw [if_pos rfl]
      exact ih c B (fun x hx => hA x (List.mem_cons_of_mem _ hx)) hc

theorem digitsVal_replicate_zero : ∀ j : Nat, digitsVal (List.replicate j '0') = 0 := by
  intro j
  induction j with
  | zero => rfl
  | succ j ih =>
      rw [List.replicate_succ]
      unfold digitsVal at ih ⊢
      rw [List.foldl_cons]
      simpa using ih

theorem allDigits_leftPad (m k : Nat) :
    allDigits (leftPad '0' k (natDigitsBE m)) = true := by
  unfold leftPad allDigits
  rw [List.all_append, Bool.and_eq_true]
  refine ⟨?_, allDigits_natDigitsBE m⟩
  rw [List.all_eq_true]
  intro c hc
  rw [List.eq_of_mem_replicate hc]
  decide

theorem digitsVal_leftPad (m k : Nat) :
    digitsVal (leftPad '0' k (natDigitsBE m)) = m := by
  unfold leftPad
  rw [digitsVal_append, digitsVal_replicate_zero, digitsVal_natDigitsBE]
  ring

theorem pyFloatCore_sep (A B : List Char) (hAdig : ∀ a ∈ A, a.isDigit = true)
    (hBdig : ∀ a ∈ B, a.isDigit = true) (hne : A ≠ []) :
    pyFloatCore (A ++ '.' :: B) =
      some ((digitsVal A : ℚ) + (digitsVal B : ℚ) / 10 ^ B.length) := by
  have hp : ∀ a ∈ A, (fun c => decide (c ≠ '.')) a = true := by
    intro a ha
    simp only [decide_eq_true_eq]
    exact (digit_char_facts (hAdig a ha)).2.2.2.2.1
  have hdot : (fun c => decide (c ≠ '.')) '.' = false := by decide
  have htw : (A ++ '.' :: B).takeWhile (fun c => decide (c ≠ '.')) = A :=
    takeWhile_append_sep A '.' B hp hdot
  have hdw : (A ++ '.' :: B).dropWhile (fun c => decide (c ≠ '.')) = '.' :: B :=
    dropWhile_append_sep A '.' B hp hdot
  have hallA : allDigits A = true := by
    unfold allDigits; rw [List.all_eq_true]; exact hAdig
  have hallB : allDigits B = true := by
    unfold allDigits; rw [List.all_eq_true]; exact hBdig
  unfold pyFloatCore
  split
  next heq => rw [hdw] at heq; exact absurd heq (by simp)
  next c fp heq =>
      rw [hdw] at heq
      injection heq with hc hfp
      subst hfp
      rw [htw]
      rw [if_pos ⟨Or.inl hne, hallA, hallB⟩]

theorem pyFloatCore_decimalChars (m k : Nat) :
    pyFloatCore (decimalChars m k) = some ((m : ℚ) / 10 ^ k) := by
  have hlen : k + 1 ≤ (leftPad '0' (k + 1) (natDigitsBE m)).length := by
    unfold leftPad
    rw [List.length_append, List.length_replicate]
    omega
  have hPdig : ∀ a ∈ leftPad '0' (k + 1) (natDigitsBE m), a.isDigit = true :=
    fun a ha => allDigits_mem (allDigits_leftPad m (k + 1)) ha
  have hDC : decimalChars m k =
      (leftPad '0' (k + 1) (natDigitsBE m)).take
          ((leftPad '0' (k + 1) (natDigitsBE m)).length - k) ++
        '.' :: (leftPad '0' (k + 1) (natDigitsBE m)).drop
          ((leftPad '0' (k + 1) (natDigitsBE m)).length - k) := rfl
  have hAdig : ∀ a ∈ (leftPad '0' (k + 1) (natDigitsBE m)).take
      ((leftPad '0' (k + 1) (natDigitsBE m)).length - k), a.isDigit = true :=
    fun a ha => hPdig a (List.take_subset _ _ ha)
  have hBdig : ∀ a ∈ (leftPad '0' (k + 1) (natDigitsBE m)).drop
      ((leftPad '0' (k + 1) (natDigitsBE m)).length - k), a.isDigit = true :=
    fun a ha => hPdig a (List.drop_subset _ _ ha)
  have hAlen : ((leftPad '0' (k + 1) (natDigitsBE m)).take
      ((leftPad '0' (k + 1) (natDigitsBE m)).length - k)).length =
      (leftPad '0' (k + 1) (natDigitsBE m)).length - k := by
    rw [List.length_take]
    omega
  have hBlen : ((leftPad '0' (k + 1) (natDigitsBE m)).drop
      ((leftPad '0' (k + 1) (natDigitsBE m)).length - k)).length = k := by
    rw [List.length_drop]
    omega
  have hAne : (leftPad '0' (k + 1) (natDigitsBE m)).take
      ((leftPad '0' (k + 1) (natDigitsBE m)).length - k) ≠ [] := by
    intro h0
    have := congrArg List.length h0
    rw [hAlen] at this
    simp at this
    omega
  have hAB : digitsVal ((leftPad '0' (k + 1) (natDigitsBE m)).take
        ((leftPad '0' (k + 1) (natDigitsBE m)).length - k)) * 10 ^ k +
      digitsVal ((leftPad '0' (k + 1) (natDigitsBE m)).drop
        ((leftPad '0' (k + 1) (natDigitsBE m)).length - k)) = m := by
    have happ := digitsVal_append
      ((leftPad '0' (k + 1) (natDigitsBE m)).take
        ((leftPad '0' (k + 1) (natDigitsBE m)).length - k))
      ((leftPad '0' (k + 1) (natDigitsBE m)).drop
        ((leftPad '0' (k + 1) (natDigitsBE m)).length - k))
    rw [hBlen, List.take_append_drop, digitsVal_leftPad] at happ
    omega
  rw [hDC, pyFloatCore_sep _ _ hAdig hBdig hAne]
  refine congrArg some ?_
  rw [hBlen]
  have hABq : (digitsVal ((leftPad '0' (k + 1) (natDigitsBE m)).take
        ((leftPad '0' (k + 1) (natDigitsBE m)).length - k)) : ℚ) * 10 ^ k +
      (digitsVal ((leftPad '0' (k + 1) (natDigitsBE m)).drop
        ((leftPad '0' (k + 1) (natDigitsBE m)).length - k)) : ℚ) = (m : ℚ) := by
    exact_mod_cast congrArg (Nat.cast : Nat → ℚ) hAB
  have hpow : ((10 : ℚ) ^ k) ≠ 0 := by positivity
  field_simp
  linarith

theorem pyFloat_mk_cons (c : Char) (rest : List Char) :
    pyFloat ⟨c :: rest⟩ =
      if c = '-' then (pyFloatCore rest).map (fun q => -q)
      else if c = '+' then pyFloatCore rest
      else pyFloatCore (c :: rest) := rfl

theorem pyFloat_decimalChars (m k : Nat) :
    pyFloat ⟨decimalChars m k⟩ = some ((m : ℚ) / 10 ^ k) := by
  have hPdig : ∀ a ∈ leftPad '0' (k + 1) (natDigitsBE m), a.isDigit = true :=
    fun a ha => allDigits_mem (allDigits_leftPad m (k + 1)) ha
  cases hA : (leftPad '0' (k + 1) (natDigitsBE m)).take
      ((leftPad '0' (k + 1) (natDigitsBE m)).length - k) with
  | nil =>
      exfalso
      have hlen : k + 1 ≤ (leftPad '0' (k + 1) (natDigitsBE m)).length := by
        unfold leftPad
        rw [List.length_append, List.length_replicate]
        omega
      have := congrArg List.length hA
      rw [List.length_take] at this
      simp at this
      omega
  | cons c A2 =>
      have hDC0 : decimalChars m k =
          (leftPad '0' (k + 1) (natDigitsBE m)).take
              ((leftPad '0' (k + 1) (natDigitsBE m)).length - k) ++
            '.' :: (leftPad '0' (k + 1) (natDigitsBE m)).drop
              ((leftPad '0' (k + 1) (natDigitsBE m)).length - k) := rfl
      have hDC : decimalChars m k = c :: (A2 ++ '.' ::
          (leftPad '0' (k + 1) (natDigitsBE m)).drop
            ((leftPad '0' (k + 1) (natDigitsBE m)).length - k)) := by
        rw [hDC0, hA]
        rfl
      have hcdig : c.isDigit = true :=
        hPdig c (List.take_subset _ _ (hA ▸ List.mem_cons_self c A2))
      obtain ⟨h1, h2, _, _, _, _⟩ := digit_char_facts hcdig
      rw [hDC, pyFloat_mk_cons, if_neg h1, if_neg h2]
      have hback : c :: (A2 ++ '.' ::
          (leftPad '0' (k + 1) (natDigitsBE m)).drop
            ((leftPad '0' (k + 1) (natDigitsBE m)).length - k)) = decimalChars m k := by
        rw [hDC]
      rw [hback]
      exact pyFloatCore_decimalChars m k

theorem decimal_value_eq_abs (q : ℚ) (hdvd : q.den ∣ 10 ^ q.den) :
    ((q.num.natAbs * (10 ^ q.den / q.den) : Nat) : ℚ) / 10 ^ q.den = |q| := by
  have hc : (10 ^ q.den / q.den) * q.den = 10 ^ q.den := Nat.div_mul_cancel hdvd
  have h10 : 0 < 10 ^ q.den := Nat.pow_pos (by norm_num)
  have hcpos : 0 < 10 ^ q.den / q.den := by
    rcases Nat.eq_zero_or_pos (10 ^ q.den / q.den) with h0 | h
    · rw [h0, Nat.zero_mul] at hc; omega
    · exact h
  have hcQ : ((10 ^ q.den / q.den : Nat) : ℚ) * (q.den : ℚ) = ((10 ^ q.den : Nat) : ℚ) := by
    exact_mod_cast congrArg (Nat.cast : Nat → ℚ) hc
  have hc0 : ((10 ^ q.den / q.den : Nat) : ℚ) ≠ 0 := by
    exact_mod_cast Nat.pos_iff_ne_zero.mp hcpos
  have hden0 : (q.den : ℚ) ≠ 0 := Nat.cast_ne_zero.mpr q.den_pos.ne'
  have habs : |q| = |(q.num : ℚ)| / (q.den : ℚ) := by
    conv_lhs => rw [← Rat.num_div_den q]
    rw [abs_div]
    congr 1
    exact abs_of_pos (by exact_mod_cast q.den_pos)
  rw [habs, Nat.cast_mul, Int.cast_natAbs]
  have h10Q : ((10 : ℚ)) ^ q.den = ((10 ^ q.den / q.den : Nat) : ℚ) * (q.den : ℚ) := by
    rw [hcQ]
    push_cast
    ring
  rw [h10Q]
  field_simp
  ring

theorem pyFloat_ratRepr {q : ℚ} (hdvd : q.den ∣ 10 ^ q.den) : pyFloat (ratRepr q) = some q := by
  have hr : ratRepr q =
      if q < 0 then
        "-" ++ (⟨decimalChars (q.num.natAbs * (10 ^ q.den / q.den)) q.den⟩ : String)
      else ⟨decimalChars (q.num.natAbs * (10 ^ q.den / q.den)) q.den⟩ := by
    unfold ratRepr
    rw [if_pos hdvd]
  rw [hr]
  split_ifs with hneg
  · have hstr : ("-" ++ (⟨decimalChars (q.num.natAbs * (10 ^ q.den / q.den)) q.den⟩ : String)) =
        (⟨'-' :: decimalChars (q.num.natAbs * (10 ^ q.den / q.den)) q.den⟩ : String) := rfl
    rw [hstr, pyFloat_mk_cons, if_pos rfl]
    rw [pyFloatCore_decimalChars]
    refine congrArg some ?_
    rw [decimal_value_eq_abs q hdvd, abs_of_neg hneg]
    ring
  · rw [pyFloat_decimalChars]
    refine congrArg some ?_
    rw [decimal_value_eq_abs q hdvd]
    exact abs_of_nonneg (not_lt.mp hneg)

/-! ### The parser only produces well-formed records -/

theorem den_dvd_of_pyFloat {s : String} {q : ℚ} (h : pyFloat s = some q) :
    q.den ∣ 10 ^ q.den := by
  unfold pyFloat at h
  split at h
  · exact absurd h (by simp)
  · split_ifs at h with h1 h2
    · obtain ⟨q', hq', rfl⟩ := Option.map_eq_some'.mp h
      rw [Rat.den_neg_eq_den]
      exact den_dvd_self_pow_of_pyFloatCore hq'
    · exact den_dvd_self_pow_of_pyFloatCore h
    · exact den_dvd_self_pow_of_pyFloatCore h

theorem no_pipe_of_mem_splitPipe {l : String} {p : String} (hp : p ∈ splitPipe l) :
    '|' ∉ p.data := by
  unfold splitPipe at hp
  obtain ⟨part, hpart, rfl⟩ := List.mem_map.mp hp
  exact no_pipe_of_mem_splitPipeAux _ part hpart

theorem pyStrip_no_pipe {s : String} (h : '|' ∉ s.data) : '|' ∉ (pyStrip s).data :=
  fun hc => h (mem_of_mem_stripAux hc)

theorem removeCommas_no_pipe {s : String} (h : '|' ∉ s.data) : '|' ∉ (removeCommas s).data :=
  fun hc => h (List.mem_of_mem_filter hc)

theorem removeCommas_no_comma (s : String) : ',' ∉ (removeCommas s).data := by
  intro hc
  have := List.of_mem_filter hc
  simp at this

theorem removeCommas_eq_self {s : String} (h : ',' ∉ s.data) : removeCommas s = s := by
  unfold removeCommas
  have hf : s.data.filter (fun c => decide (c ≠ ',')) = s.data := by
    rw [List.filter_eq_self]
    intro a ha
    simp only [decide_eq_true_eq]
    intro hEq
    exact h (hEq ▸ ha)
  rw [hf]

theorem pyStrip_eq_self {s : String} (h : ∀ c ∈ s.data, isPySpace c = false) :
    pyStrip s = s := by
  unfold pyStrip
  rw [stripAux_of_no_space h]

theorem parseLine_wellFormed {l : String} {t : Transaction}
    (h : parseLine l = some t) : wellFormedTxn t := by
  unfold parseLine at h
  split at h
  case h_2 => exact absurd h (by simp)
  case h_1 p0 p1 p2 p3 p4 p5 p6 p7 heq =>
      split at h
      case h_2 => exact absurd h (by simp)
      case h_1 q up hq hup =>
          have hmem : ∀ p ∈ splitPipe l, '|' ∉ (p : String).data :=
            fun p hp => no_pipe_of_mem_splitPipe hp
          rw [heq] at hmem
          simp only [Option.some.injEq] at h
          subst h
          refine ⟨⟨pyStrip_no_pipe (hmem p0 (by simp)), pyStrip_idem p0⟩,
            ⟨pyStrip_no_pipe (hmem p1 (by simp)), pyStrip_idem p1⟩,
            ⟨pyStrip_no_pipe (hmem p2 (by simp)), pyStrip_idem p2⟩,
            ⟨removeCommas_no_pipe (pyStrip_no_pipe (hmem p3 (by simp))),
              removeCommas_no_comma _⟩,
            ⟨pyStrip_no_pipe (hmem p6 (by simp)), pyStrip_idem p6⟩,
            ⟨pyStrip_no_pipe (hmem p7 (by simp)), pyStrip_idem p7⟩,
            den_dvd_of_pyFloat hup⟩

/-! ### Serialized numeric fields are clean -/

theorem mem_intRepr_chars {n : Int} {c : Char} (hc : c ∈ (intRepr n).data) :
    c = '-' ∨ c.isDigit = true := by
  unfold intRepr at hc
  split_ifs at hc
  · rw [show ("-" ++ natRepr n.natAbs).data = '-' :: natDigitsBE n.natAbs from rfl] at hc
    rcases List.mem_cons.mp hc with rfl | hmem
    · exact Or.inl rfl
    · exact Or.inr (allDigits_mem (allDigits_natDigitsBE _) hmem)
  · exact Or.inr (allDigits_mem (allDigits_natDigitsBE _) hc)

theorem mem_decimalChars_chars {m k : Nat} {c : Char} (hc : c ∈ decimalChars m k) :
    c = '.' ∨ c.isDigit = true := by
  have hDC : decimalChars m k =
      (leftPad '0' (k + 1) (natDigitsBE m)).take
          ((leftPad '0' (k + 1) (natDigitsBE m)).length - k) ++
        '.' :: (leftPad '0' (k + 1) (natDigitsBE m)).drop
          ((leftPad '0' (k + 1) (natDigitsBE m)).length - k) := rfl
  rw [hDC] at hc
  rcases List.mem_append.mp hc with h | h
  · exact Or.inr (allDigits_mem (allDigits_leftPad m (k + 1)) (List.take_subset _ _ h))
  · rcases List.mem_cons.mp h with rfl | h2
    · exact Or.inl rfl
    · exact Or.inr (allDigits_mem (allDigits_leftPad m (k + 1)) (List.drop_subset _ _ h2))

theorem mem_ratRepr_chars {q : ℚ} {c : Char} (hc : c ∈ (ratRepr q).data) :
    c = '-' ∨ c = '.' ∨ c.isDigit = true := by
  unfold ratRepr at hc
  split_ifs at hc with h1 h2
  · rw [show ("-" ++ (⟨decimalChars (q.num.natAbs * (10 ^ q.den / q.den)) q.den⟩ : String)).data =
      '-' :: decimalChars (q.num.natAbs * (10 ^ q.den / q.den)) q.den from rfl] at hc
    rcases List.mem_cons.mp hc with rfl | hmem
    · exact Or.inl rfl
    · exact Or.inr (mem_decimalChars_chars hmem)
  · exact Or.inr (mem_decimalChars_chars hc)
  · rcases List.mem_cons.mp hc with rfl | hc2
    · right; right; decide
    · rcases List.mem_cons.mp hc2 with rfl | hc3
      · right; left; rfl
      · rcases List.mem_cons.mp hc3 with rfl | hc4
        · right; right; decide
        · exact absurd hc4 (by simp)

theorem numericString_clean {s : String}
    (hchars : ∀ c ∈ s.data, c = '-' ∨ c = '.' ∨ c.isDigit = true) :
    pyStrip s = s ∧ removeCommas s = s ∧ '|' ∉ s.data := by
  have hns : ∀ c ∈ s.data, isPySpace c = false := by
    intro c hc
    rcases hchars c hc with rfl | rfl | hd
    · decide
    · decide
    · exact (digit_char_facts hd).2.2.2.2.2
  have hnc : ',' ∉ s.data := by
    intro hc
    rcases hchars ',' hc with h | h | h
    · exact absurd h (by decide)
    · exact absurd h (by decide)
    · exact absurd h (by decide)
  have hnp : '|' ∉ s.data := by
    intro hc
    rcases hchars '|' hc with h | h | h
    · exact absurd h (by decide)
    · exact absurd h (by decide)
    · exact absurd h (by decide)
  exact ⟨pyStrip_eq_self hns, removeCommas_eq_self hnc, hnp⟩

theorem splitPipe_joinPipe (fs : List String) (hp : ∀ f ∈ fs, '|' ∉ (f : String).data)
    (h : fs ≠ []) : splitPipe (joinPipe fs) = fs := by
  unfold splitPipe joinPipe
  rw [show (String.mk (joinPipeAux (fs.map String.data))).data =
    joinPipeAux (fs.map String.data) from rfl]
  rw [splitPipeAux_join (fs.map String.data)
    (by intro f hf; obtain ⟨g, hg, rfl⟩ := List.mem_map.mp hf; exact hp g hg)
    (by simpa using h)]
  rw [List.map_map]
  rw [show String.mk ∘ String.data = id from funext mk_data_eq]
  simp

theorem parseLine_eq_of_split {line p0 p1 p2 p3 p4 p5 p6 p7 : String}
    (h : splitPipe line = [p0, p1, p2, p3, p4, p5, p6, p7]) :
    parseLine line =
      match pyInt (removeCommas (pyStrip p4)), pyFloat (removeCommas (pyStrip p5)) with
      | some q, some up =>
          some { transactionID := pyStrip p0
                 date := pyStrip p1
                 productID := pyStrip p2
                 productName := removeCommas (pyStrip p3)
                 quantity := q
                 unitPrice := up
                 customerID := pyStrip p6
                 region := pyStrip p7 }
      | _, _ => none := by
  unfold parseLine
  rw [h]

/-- Re-parsing a persisted row with the API columns removed recovers the
record, with `ProductName` additionally stripped (the one field the parser
does not store trimmed). -/
theorem parseLine_dropAPI_rowOf {e : EnrichedTransaction} (hw : wellFormedTxn e.txn) :
    parseLine (dropAPIColumns (rowOf e)) =
      some { e.txn with productName := pyStrip e.txn.productName } := by
  obtain ⟨⟨hq0, hs0⟩, ⟨hq1, hs1⟩, ⟨hq2, hs2⟩, ⟨hq3, hc3⟩, ⟨hq6, hs6⟩, ⟨hq7, hs7⟩, hden⟩ := hw
  have hqclean : pyStrip (intRepr e.txn.quantity) = intRepr e.txn.quantity ∧
      removeCommas (intRepr e.txn.quantity) = intRepr e.txn.quantity ∧
      '|' ∉ (intRepr e.txn.quantity).data :=
    numericString_clean (fun c hc =>
      (mem_intRepr_chars hc).elim Or.inl (fun h => Or.inr (Or.inr h)))
  have hupclean : pyStrip (ratRepr e.txn.unitPrice) = ratRepr e.txn.unitPrice ∧
      removeCommas (ratRepr e.txn.unitPrice) = ratRepr e.txn.unitPrice ∧
      '|' ∉ (ratRepr e.txn.unitPrice).data :=
    numericString_clean (fun c hc => mem_ratRepr_chars hc)
  have hpipe8 : ∀ f ∈ [e.txn.transactionID, e.txn.date, e.txn.productID, e.txn.productName,
      intRepr e.txn.quantity, ratRepr e.txn.unitPrice, e.txn.customerID, e.txn.region],
      '|' ∉ (f : String).data := by
    intro f hf
    simp only [List.mem_cons, List.not_mem_nil, or_false] at hf
    rcases hf with rfl | rfl | rfl | rfl | rfl | rfl | rfl | rfl
    · exact hq0
    · exact hq1
    · exact hq2
    · exact hq3
    · exact hqclean.2.2
    · exact hupclean.2.2
    · exact hq6
    · exact hq7
  have hrow : rowOf e =
      joinPipe ([e.txn.transactionID, e.txn.date, e.txn.productID, e.txn.productName,
          intRepr e.txn.quantity, ratRepr e.txn.unitPrice, e.txn.customerID, e.txn.region] ++
        [e.api_category, e.api_brand, ratRepr e.api_rating, boolRepr e.api_match]) := rfl
  have hsplit := splitPipe_joinPipe_prefixed
    [e.txn.transactionID, e.txn.date, e.txn.productID, e.txn.productName,
      intRepr e.txn.quantity, ratRepr e.txn.unitPrice, e.txn.customerID, e.txn.region]
    [e.api_category, e.api_brand, ratRepr e.api_rating, boolRepr e.api_match]
    hpipe8 (by simp)
  have hdrop : dropAPIColumns (rowOf e) =
      joinPipe [e.txn.transactionID, e.txn.date, e.txn.productID, e.txn.productName,
        intRepr e.txn.quantity, ratRepr e.txn.unitPrice, e.txn.customerID, e.txn.region] := by
    unfold dropAPIColumns
    rw [hrow, hsplit]
    rw [List.take_left' (by rfl)]
  rw [hdrop]
  have hsplit8 := splitPipe_joinPipe
    [e.txn.transactionID, e.txn.date, e.txn.productID, e.txn.productName,
      intRepr e.txn.quantity, ratRepr e.txn.unitPrice, e.txn.customerID, e.txn.region]
    hpipe8 (by simp)
  rw [parseLine_eq_of_split hsplit8]
  rw [hqclean.1, hqclean.2.1, hupclean.1, hupclean.2.1]
  rw [pyInt_intRepr, pyFloat_ratRepr hden]
  rw [hs0, hs1, hs2, hs6, hs7]
  have hnc : ',' ∉ (pyStrip e.txn.productName).data :=
    fun hc => hc3 (mem_of_mem_stripAux hc)
  rw [removeCommas_eq_self hnc]

theorem mem_of_mem_validateLoop {region : Option String} {mn mx : Option ℚ} :
    ∀ {txns : List Transaction} {t : Transaction},
      t ∈ (validateLoop region mn mx txns).1 → t ∈ txns := by
  intro txns
  induction txns with
  | nil => intro t ht; simp [validateLoop] at ht
  | cons a rest ih =>
      intro t ht
      simp only [validateLoop] at ht
      split_ifs at ht
      · exact List.mem_cons_of_mem _ (ih ht)
      · exact List.mem_cons_of_mem _ (ih ht)
      · exact List.mem_cons_of_mem _ (ih ht)
      · exact List.mem_cons_of_mem _ (ih ht)
      · exact List.mem_cons_of_mem _ (ih ht)
      · exact List.mem_cons_of_mem _ (ih ht)
      · rcases List.mem_cons.mp ht with rfl | hmem
        · exact List.mem_cons_self _ _
        · exact List.mem_cons_of_mem _ (ih hmem)

theorem enrichOne_txn (mapping : List (Int × CatalogInfo)) (t : Transaction) :
    (enrichOne mapping t).txn = t := by
  simp only [enrichOne]
  split_ifs
  · rfl
  · split <;> rfl

theorem parse_transactions_wellFormed {lines : List String} {t : Transaction}
    (h : t ∈ parse_transactions lines) : wellFormedTxn t := by
  obtain ⟨l, _, hl⟩ := List.mem_filterMap.mp h
  exact parseLine_wellFormed hl

theorem reparse_rows (mapping : List (Int × CatalogInfo)) :
    ∀ V : List Transaction, (∀ t ∈ V, wellFormedTxn t) →
      List.filterMap parseLine
          (((enrich_sales_data V mapping).map rowOf).map dropAPIColumns) =
        V.map (fun t => { t with productName := pyStrip t.productName }) := by
  intro V
  induction V with
  | nil => intro _; rfl
  | cons t rest ih =>
      intro hwf
      unfold enrich_sales_data
      simp only [List.map_cons, List.filterMap_cons]
      have hw : wellFormedTxn (enrichOne mapping t).txn := by
        rw [enrichOne_txn]
        exact hwf t (List.mem_cons_self _ _)
      rw [parseLine_dropAPI_rowOf hw]
      rw [enrichOne_txn]
      have hrest := ih (fun s hs => hwf s (List.mem_cons_of_mem _ hs))
      unfold enrich_sales_data at hrest
      rw [hrest]

/-- C7 (amended): persisting the validated-and-enriched set and re-parsing
the written rows with the API columns removed reproduces the validated
transactions exactly, except that each `ProductName` comes back stripped
of surrounding whitespace (the parser strips before deleting commas, so a
stored name may carry whitespace that a re-parse removes); whenever every
validated `ProductName` is already trimmed, the round-trip is exact. -/
theorem roundtrip_modulo_name_strip (lines : List String) (region : Option String)
    (mn mx : Option ℚ) (mapping : List (Int × CatalogInfo)) :
    parse_transactions
        (((save_enriched_data (enrich_sales_data
            (validate_and_filter_data (parse_transactions lines) region mn mx).1
            mapping)).getD []).map dropAPIColumns) =
      (validate_and_filter_data (parse_transactions lines) region mn mx).1.map
        (fun t => { t with productName := pyStrip t.productName }) := by
  have hwf : ∀ t ∈ (validate_and_filter_data (parse_transactions lines) region mn mx).1,
      wellFormedTxn t := by
    intro t ht
    exact parse_transactions_wellFormed (mem_of_mem_validateLoop ht)
  by_cases hemp : enrich_sales_data
      (validate_and_filter_data (parse_transactions lines) region mn mx).1 mapping = []
  · have hVnil : (validate_and_filter_data (parse_transactions lines) region mn mx).1 = [] := by
      unfold enrich_sales_data at hemp
      simpa using hemp
    rw [hVnil]
    unfold save_enriched_data
    rw [hVnil] at hemp
    rw [if_pos hemp]
    rfl
  · unfold save_enriched_data
    rw [if_neg hemp]
    simp only [Option.getD_some, List.map_cons]
    unfold parse_transactions
    rw [List.filterMap_cons_none (by with_unfolding_all decide :
      parseLine (dropAPIColumns saveHeader) = none)]
    exact reparse_rows mapping _ hwf

/-- C7 (counterexample to the claim as stated): for the concrete line
whose `ProductName` field is `", x"`, the parsed and validated record
stores the name `" x"`, but persisting and re-parsing yields `"x"` — the
core fields are not reproduced exactly. -/
theorem roundtrip_fails_on_comma_name :
    parse_transactions
        (((save_enriched_data (enrich_sales_data
            (validate_and_filter_data (parse_transactions [commaNameLine]) none none none).1
            [])).getD []).map dropAPIColumns) ≠
      (validate_and_filter_data (parse_transactions [commaNameLine]) none none none).1 := by
  with_unfolding_all decide
